import Mathlib

set_option autoImplicit false
set_option maxHeartbeats 1000000
set_option maxRecDepth 4000
set_option linter.unusedVariables false

/-!
A shallow embedding of the MetalLB IP address allocator (package `allocator`)
and the pool configuration it consumes (package `config`), together with proofs
about its assignment, sharing, auto-allocation and reconfiguration behaviour.

The pool data model (`config.Pool`, here `ConfigPool`) is translated from
`internal/config/config.go`.  The allocator operations (`New`, `SetPools`,
`Assign`, `Allocate`, `AllocateFromPool`, `Unassign`, `UnAllocate`, `IP`,
`Pool`, `poolCount`) are exercised by the test file in the sources but their
implementation file is not among the provided sources, so they are modelled
from the specification (sections 4.1-4.5, 6 and 7), with the behaviour pinned
wherever the test file decides it.
-/

/-- A service port: protocol name and port number (the allocator's `Port`
type, constructed in the tests as `Port{fs[0], p}`).  Two `Port` values
conflict iff they are equal. -/
structure Port where
  proto : String
  port : Nat
deriving DecidableEq

/-- Two port sets conflict iff their intersection is non-empty. -/
def sharedPorts (xs ys : List Port) : Bool :=
  xs.any fun p => ys.any fun q => p == q

/-- The sharing descriptor pair `(sharingKey, backendKey)` attached to every
assignment (the allocator's `key` type). -/
structure Key where
  sharing : String
  backend : String
deriving DecidableEq

/-- Address family of an IP address. -/
inductive IPFamily where
  | v4
  | v6
deriving DecidableEq

/-- Bit width of an address family. -/
def IPFamily.bits : IPFamily → Nat
  | .v4 => 32
  | .v6 => 128

/-- An IP address: a family tag plus the numeric value of the address
(v4 addresses carried in canonical 32-bit form, v6 in 128-bit form).
Two IPs compare equal iff family and numeric value agree, mirroring
byte-equality of the canonical form. -/
structure IPAddr where
  family : IPFamily
  addr : Nat
deriving DecidableEq

/-- Whether an address is IPv6 (Go `isIPv6` in config.go: `To4() == nil`). -/
def IPAddr.isV6 (ip : IPAddr) : Bool := ip.family == .v6

/-- An IPv4 address whose last octet is 0 or 255 ("buggy" addresses
historically dropped by consumer equipment); the allocator's
`ipConfusesBuggyFirmwares`. -/
def ipConfusesBuggyFirmwares (ip : IPAddr) : Bool :=
  ip.family == .v4 && (ip.addr % 256 == 0 || ip.addr % 256 == 255)

/-- A CIDR block (Go `*net.IPNet`): family, base address and prefix length. -/
structure Cidr where
  family : IPFamily
  base : Nat
  prefixLen : Nat
deriving DecidableEq

/-- Number of addresses spanned by a CIDR: `2 ^ (addrBits - prefixLen)`. -/
def Cidr.size (c : Cidr) : Nat := 2 ^ (c.family.bits - c.prefixLen)

/-- Containment test of an address in a CIDR: same family, and the network
prefix bits agree. -/
def Cidr.contains (c : Cidr) (ip : IPAddr) : Bool :=
  ip.family == c.family && ip.addr / c.size == c.base / c.size

/-- First (lowest) address in a CIDR. -/
def Cidr.firstAddr (c : Cidr) : Nat := c.base / c.size * c.size

/-- Last (highest) address in a CIDR. -/
def Cidr.lastAddr (c : Cidr) : Nat := c.firstAddr + c.size - 1

/-- Pool protocol tags (config.go `Proto`). -/
inductive Proto where
  | bgp
  | layer2
  | ipam
deriving DecidableEq

/-- The configuration of an IP address pool (config.go `Pool`): protocol,
CIDR list, the buggy-IP exclusion flag and the auto-assignment flag.  The
`IPAM` agent reference is external and appears only through the reservation
results threaded into the operations below. -/
structure ConfigPool where
  Protocol : Proto := .bgp
  CIDR : List Cidr := []
  AvoidBuggyIPs : Bool := false
  AutoAssign : Bool := false
deriving DecidableEq

/-- Modelled from the spec: pool containment (section 4.1).  A static pool
contains `ip` iff some CIDR contains it and (`AvoidBuggyIPs` is unset or the
address is not a buggy last-octet address). -/
def poolContains (p : ConfigPool) (ip : IPAddr) : Bool :=
  !(p.AvoidBuggyIPs && ipConfusesBuggyFirmwares ip) && p.CIDR.any fun c => c.contains ip

/-- Modelled from the spec: the first configured pool whose static CIDRs
contain `ip` (section 4.2 step 1); pools are kept as an insertion-ordered
association list. -/
def poolForStatic : List (String × ConfigPool) → IPAddr → Option String
  | [], _ => none
  | (name, p) :: rest, ip =>
    if poolContains p ip then some name else poolForStatic rest ip

/-- Association-list lookup (Go map read). -/
def lookupA {α : Type} : List (String × α) → String → Option α
  | [], _ => none
  | (k, v) :: rest, key => if k == key then some v else lookupA rest key

/-- Association-list insert-or-replace (Go map write): replaces the value in
place when the key is present, appends otherwise. -/
def updateA {α : Type} : List (String × α) → String → α → List (String × α)
  | [], key, v => [(key, v)]
  | (k, w) :: rest, key, v =>
    if k == key then (key, v) :: rest else (k, w) :: updateA rest key v

/-- Association-list removal (Go map delete). -/
def removeA {α : Type} (l : List (String × α)) (key : String) : List (String × α) :=
  l.filter fun kv => kv.1 != key

/-- One assignment record (the allocator's `alloc`): the owning pool's name,
the assigned IP, the service's ports and its sharing descriptor. -/
structure Alloc where
  pool : String
  ip : IPAddr
  ports : List Port
  key : Key
deriving DecidableEq

/-- Modelled from the spec: the allocator state (section 3) - the configured
pool map and the forward service-to-assignment index, both as
insertion-ordered association lists.  The per-IP reverse index (services on
an IP, agreed sharing pair) is derived from `allocated`. -/
structure Allocator where
  pools : List (String × ConfigPool) := []
  allocated : List (String × Alloc) := []
deriving DecidableEq

/-- Go `New()` - a fresh empty allocator. -/
def New : Allocator := ⟨[], []⟩

/-- Error kinds of the allocator operations (spec section 7). -/
inductive Err where
  | noPool
  | inUse
  | sharingMismatch
  | sharingFrozen
  | portConflict
  | familyMismatch
  | noCapacity
  | noSuchPool
  | configInvalid (svc : String)
  | ipamError
deriving DecidableEq

/-- Modelled from the spec: full pool identification for an address
(section 4.1).  Static pools answer by CIDR containment; IPAM pools answer by
deferring to the reservation - any address currently assigned out of an IPAM
pool is considered in-pool. -/
def Allocator.poolFor (a : Allocator) (ip : IPAddr) : Option String :=
  match poolForStatic a.pools ip with
  | some n => some n
  | none =>
    (a.allocated.find? fun kv =>
      kv.2.ip == ip && (lookupA a.pools kv.2.pool).any fun p => p.Protocol == .ipam).map
      fun kv => kv.2.pool

/-- Go `IP(service)`: the service's assigned address, if any. -/
def Allocator.IP (a : Allocator) (svc : String) : Option IPAddr :=
  (lookupA a.allocated svc).map Alloc.ip

/-- Go `Pool(service)`: the name of the pool the service's address came from,
or the empty string. -/
def Allocator.Pool (a : Allocator) (svc : String) : String :=
  match lookupA a.allocated svc with
  | some al => al.pool
  | none => ""

/-- Go `Unassign(service)`: drop the service's assignment; silent when it has
none; never contacts the IPAM agent (spec section 4.4). -/
def Allocator.Unassign (a : Allocator) (svc : String) : Allocator :=
  { a with allocated := removeA a.allocated svc }

/-- The services other than `svc` currently holding `ip` (the derived
reverse share index). -/
def othersOnIP (a : Allocator) (svc : String) (ip : IPAddr) : List (String × Alloc) :=
  a.allocated.filter fun kv => kv.2.ip == ip && kv.1 != svc

/-- Modelled from the spec: the sharing pre-flight checks of `Assign`
(section 4.2 step 2 and the in-place change rule, section 7 error kinds).
When other services hold the IP: any holder with an empty sharing key, or an
empty caller key, is `in-use`; a differing `(sharingKey, backendKey)` pair is
`sharing-frozen` when the caller already holds this IP (the pair is frozen
while shared) and `sharing-mismatch` otherwise; a port intersection with any
holder is `port-conflict`.  Port changes by a current holder are allowed
(pinned by the test `s3 can change its ports while keeping the same IP`). -/
def checkSharing (a : Allocator) (svc : String) (ip : IPAddr) (ports : List Port)
    (sk : Key) : Option Err :=
  match othersOnIP a svc ip with
  | [] => none
  | fo :: rest =>
    if (fo :: rest).any (fun kv => kv.2.key.sharing == "") then some .inUse
    else if sk.sharing == "" then some .inUse
    else if sk != fo.2.key then
      if (lookupA a.allocated svc).any (fun al => al.ip == ip) then some .sharingFrozen
      else some .sharingMismatch
    else if (fo :: rest).any (fun kv => sharedPorts ports kv.2.ports) then some .portConflict
    else none

/-- Modelled from the spec: releasing the caller's prior, different IP during
an atomic reassign may require an IPAM release when that IP came from an IPAM
pool (section 4.2 step 3). -/
def needsIpamRelease (a : Allocator) (svc : String) (ip : IPAddr) : Bool :=
  (lookupA a.allocated svc).any fun prev =>
    prev.ip != ip && (lookupA a.pools prev.pool).any fun p => p.Protocol == .ipam

/-- Modelled from the spec: the shared tail of `Assign` once the owning pool
is known - sharing checks, release of a prior different IP (whose IPAM
release outcome is the `releaseOk` input; a failed release fails the whole
operation), then the forward-index update (section 4.2 steps 2-4). -/
def Allocator.doAssign (a : Allocator) (svc poolName : String) (ip : IPAddr)
    (ports : List Port) (sk : Key) (releaseOk : Bool) : Option Err × Allocator :=
  match checkSharing a svc ip ports sk with
  | some e => (some e, a)
  | none =>
    if needsIpamRelease a svc ip && !releaseOk then (some .ipamError, a)
    else (none, { a with allocated := updateA a.allocated svc ⟨poolName, ip, ports, sk⟩ })

/-- Modelled from the spec: `Assign(service, ip, ports, sharingKey,
backendKey)` (section 4.2).  `releaseOk` is the outcome of the IPAM release
of a prior different IP, when one is needed. -/
def Allocator.Assign (a : Allocator) (svc : String) (ip : IPAddr) (ports : List Port)
    (sharingKey backendKey : String) (releaseOk : Bool) : Option Err × Allocator :=
  match a.poolFor ip with
  | none => (some .noPool, a)
  | some poolName => a.doAssign svc poolName ip ports ⟨sharingKey, backendKey⟩ releaseOk

/-- Modelled from the spec: validity of one live assignment under a new pool
map (section 4.5 step 2) - some new pool statically contains the IP without
newly classifying it as buggy, or the assignment's pool is an IPAM pool of the
new map (IPAM containment defers to the live reservation). -/
def allocValid (pools : List (String × ConfigPool)) (kv : String × Alloc) : Bool :=
  (poolForStatic pools kv.2.ip).isSome ||
  (lookupA pools kv.2.pool).any fun p => p.Protocol == .ipam

/-- Modelled from the spec: refresh one assignment's cached pool name after a
successful `SetPools` (section 4.5 step 3, rename handling). -/
def refreshAlloc (pools : List (String × ConfigPool)) (kv : String × Alloc) :
    String × Alloc :=
  match poolForStatic pools kv.2.ip with
  | some n => (kv.1, { kv.2 with pool := n })
  | none => kv

/-- Modelled from the spec: `SetPools(newPools)` (section 4.5) - validate
every live assignment against the new pool map; on the first orphaned
assignment reject with *config-invalid* citing the offending service and
change nothing; otherwise swap the pool map atomically and refresh every
cached pool name. -/
def Allocator.SetPools (a : Allocator) (ps : List (String × ConfigPool)) :
    Option Err × Allocator :=
  match a.allocated.find? (fun kv => !allocValid ps kv) with
  | some kv => (some (.configInvalid kv.1), a)
  | none => (none, { pools := ps, allocated := a.allocated.map (refreshAlloc ps) })

/-- Modelled from the spec: `UnAllocate(service)` (section 4.4) - like
`Unassign` but first releasing the IPAM reservation when the assignment came
from an IPAM pool; `releaseOk` is the agent's release outcome; on a failed
release the error is surfaced and the in-memory state is untouched. -/
def Allocator.UnAllocate (a : Allocator) (svc : String) (releaseOk : Bool) :
    Option Err × Allocator :=
  match lookupA a.allocated svc with
  | none => (none, a)
  | some al =>
    if (lookupA a.pools al.pool).any (fun p => p.Protocol == .ipam) then
      if releaseOk then (none, a.Unassign svc) else (some .ipamError, a)
    else (none, a.Unassign svc)

/-- Modelled from the spec: numerically ascending scan of one CIDR
(section 4.3) - brute-force attempt `Assign` on each address, accepting the
first success; `fuel` is the number of addresses left to try. -/
def tryAddrs (a : Allocator) (svc : String) (ports : List Port) (sh bk : String)
    (releaseOk : Bool) (fam : IPFamily) (base : Nat) : Nat → Option (IPAddr × Allocator)
  | 0 => none
  | fuel + 1 =>
    match a.Assign svc ⟨fam, base⟩ ports sh bk releaseOk with
    | (none, a1) => some (⟨fam, base⟩, a1)
    | (some _, _) => tryAddrs a svc ports sh bk releaseOk fam (base + 1) fuel

/-- Modelled from the spec: scan the CIDRs of a static pool in order,
skipping CIDRs of the wrong family (section 4.3). -/
def tryCidrs (a : Allocator) (svc : String) (ports : List Port) (sh bk : String)
    (releaseOk : Bool) (isIPv6 : Bool) : List Cidr → Option (IPAddr × Allocator)
  | [] => none
  | c :: rest =>
    if (c.family == .v6) == isIPv6 then
      match tryAddrs a svc ports sh bk releaseOk c.family c.firstAddr c.size with
      | some r => some r
      | none => tryCidrs a svc ports sh bk releaseOk isIPv6 rest
    else tryCidrs a svc ports sh bk releaseOk isIPv6 rest

/-- Modelled from the spec: `AllocateFromPool` (section 4.3).  Unknown pool
name is *no-such-pool*.  For an IPAM pool the agent's reservation result is
the `reserve` input (`none` for an agent failure); exactly one reserved
address is required, and it is assigned with the reservation recorded under
the pool's name (a failed assign releases the reservation and changes
nothing).  For a static pool the CIDRs are scanned in order for the first
assignable address; a pool with no CIDR of the requested family is
*family-mismatch*; an exhausted pool is *no-capacity*. -/
def Allocator.AllocateFromPool (a : Allocator) (svc : String) (isIPv6 : Bool)
    (poolName : String) (ports : List Port) (sh bk : String) (releaseOk : Bool)
    (reserve : Option (List IPAddr)) : Except Err IPAddr × Allocator :=
  match lookupA a.pools poolName with
  | none => (.error .noSuchPool, a)
  | some p =>
    if p.Protocol == .ipam then
      match reserve with
      | none => (.error .ipamError, a)
      | some [ip] =>
        match a.doAssign svc poolName ip ports ⟨sh, bk⟩ releaseOk with
        | (none, a1) => (.ok ip, a1)
        | (some e, _) => (.error e, a)
      | some _ => (.error .ipamError, a)
    else if p.CIDR.all (fun c => (c.family == .v6) != isIPv6) then
      (.error .familyMismatch, a)
    else
      match tryCidrs a svc ports sh bk releaseOk isIPv6 p.CIDR with
      | some (ip, a1) => (.ok ip, a1)
      | none => (.error .noCapacity, a)

/-- Modelled from the spec: the auto-pick iteration of `Allocate`
(section 4.3 steps 2-4) - walk the configured pools in insertion order,
skipping pools with `AutoAssign` unset and static pools whose first CIDR has
the wrong family; the first pool yielding an address wins; otherwise
*no-capacity*. -/
def allocateLoop (a : Allocator) (svc : String) (isIPv6 : Bool) (ports : List Port)
    (sh bk : String) (releaseOk : Bool) (reserve : String → Option (List IPAddr)) :
    List (String × ConfigPool) → Except Err IPAddr × Allocator
  | [] => (.error .noCapacity, a)
  | (name, p) :: rest =>
    if !p.AutoAssign ||
        (p.Protocol != .ipam &&
          ((p.CIDR.head?.map fun c => c.family == .v6).getD false) != isIPv6) then
      allocateLoop a svc isIPv6 ports sh bk releaseOk reserve rest
    else
      match a.AllocateFromPool svc isIPv6 name ports sh bk releaseOk (reserve name) with
      | (.ok ip, a1) => (.ok ip, a1)
      | (.error _, _) => allocateLoop a svc isIPv6 ports sh bk releaseOk reserve rest

/-- Modelled from the spec: `Allocate(service, wantV6, ports, sharingKey,
backendKey)` (section 4.3 step 1 and the iteration).  A prior assignment of
the wrong family is *family-mismatch*; a prior assignment of the right family
is re-validated in place via `Assign` and returned on success, freed and
re-allocated otherwise. -/
def Allocator.Allocate (a : Allocator) (svc : String) (isIPv6 : Bool) (ports : List Port)
    (sh bk : String) (releaseOk : Bool) (reserve : String → Option (List IPAddr)) :
    Except Err IPAddr × Allocator :=
  match lookupA a.allocated svc with
  | some al =>
    if (al.ip.family == .v6) != isIPv6 then (.error .familyMismatch, a)
    else
      match a.Assign svc al.ip ports sh bk releaseOk with
      | (none, a1) => (.ok al.ip, a1)
      | (some _, _) => allocateLoop (a.Unassign svc) svc isIPv6 ports sh bk releaseOk reserve a.pools
  | none => allocateLoop a svc isIPv6 ports sh bk releaseOk reserve a.pools

/-- Go `math.MaxInt64`, the saturation ceiling of pool counting. -/
def MaxInt64 : Nat := 2 ^ 63 - 1

/-- Saturating addition at `MaxInt64`. -/
def satAdd (x y : Nat) : Nat := min (x + y) MaxInt64

/-- Whether a raw IPv4 numeric address has a buggy last octet. -/
def buggyLastOctet (n : Nat) : Bool := n % 256 == 0 || n % 256 == 255

/-- Modelled from the spec: the number of `.0`/`.255` addresses inside an
IPv4 CIDR (section 4.1) - two per covered /24 block for prefixes up to 24;
for longer prefixes, one when the (aligned) range starts at a `.0` or ends at
a `.255`, none otherwise. -/
def cidrBuggyCount (c : Cidr) : Nat :=
  if c.family == .v4 then
    if c.prefixLen ≤ 24 then 2 * 2 ^ (24 - c.prefixLen)
    else if buggyLastOctet c.firstAddr || buggyLastOctet c.lastAddr then 1 else 0
  else 0

/-- Usable address count of one CIDR before saturation: the CIDR size, less
the buggy addresses when `AvoidBuggyIPs` is set. -/
def cidrRawCount (avoid : Bool) (c : Cidr) : Nat :=
  if avoid then c.size - cidrBuggyCount c else c.size

/-- Modelled from the spec: `poolCount(pool)` (section 4.1) - per-CIDR usable
counts accumulated with arithmetic saturating at `MaxInt64`. -/
def poolCount (p : ConfigPool) : Nat :=
  p.CIDR.foldl (fun acc c => satAdd acc (min (cidrRawCount p.AvoidBuggyIPs c) MaxInt64)) 0

/-- The forward index holds at most one assignment per service: the service
names are pairwise distinct. -/
def KeysNodup (a : Allocator) : Prop := (a.allocated.map Prod.fst).Nodup

/-- Every live assignment is still representable under the current pool map
(spec section 3, assignment invariant 3). -/
def PoolInv (a : Allocator) : Prop :=
  ∀ kv ∈ a.allocated, allocValid a.pools kv = true

/-- The IP-sharing invariant (spec section 3, assignment invariant 2, and
section 8): any two distinct services on one IP carry the same non-empty
sharing key, the same backend key, and non-intersecting port sets. -/
def SharingInvariant (a : Allocator) : Prop :=
  ∀ kv1 ∈ a.allocated, ∀ kv2 ∈ a.allocated, kv1.1 ≠ kv2.1 → kv1.2.ip = kv2.2.ip →
    kv1.2.key = kv2.2.key ∧ kv1.2.key.sharing ≠ "" ∧
    sharedPorts kv1.2.ports kv2.2.ports = false

/-- The allocator's internal invariant: per-service uniqueness, pool validity
of every assignment, and the IP-sharing invariant. -/
def AllocInv (a : Allocator) : Prop := KeysNodup a ∧ PoolInv a ∧ SharingInvariant a

/-- The reachable allocator states: everything producible from `New` by the
public operations, with arbitrary IPAM agent outcomes. -/
inductive Reachable : Allocator → Prop where
  | new : Reachable New
  | setPools {a : Allocator} (ps : List (String × ConfigPool)) :
      Reachable a → Reachable (a.SetPools ps).2
  | assign {a : Allocator} (svc : String) (ip : IPAddr) (ports : List Port)
      (sh bk : String) (rOk : Bool) :
      Reachable a → Reachable (a.Assign svc ip ports sh bk rOk).2
  | unassign {a : Allocator} (svc : String) :
      Reachable a → Reachable (a.Unassign svc)
  | unAllocate {a : Allocator} (svc : String) (rOk : Bool) :
      Reachable a → Reachable (a.UnAllocate svc rOk).2
  | allocate {a : Allocator} (svc : String) (v6 : Bool) (ports : List Port)
      (sh bk : String) (rOk : Bool) (reserve : String → Option (List IPAddr)) :
      Reachable a → Reachable (a.Allocate svc v6 ports sh bk rOk reserve).2
  | allocateFromPool {a : Allocator} (svc : String) (v6 : Bool) (pn : String)
      (ports : List Port) (sh bk : String) (rOk : Bool) (reserve : Option (List IPAddr)) :
      Reachable a → Reachable (a.AllocateFromPool svc v6 pn ports sh bk rOk reserve).2

/-- Shorthand for building IPv4 addresses in concrete statements. -/
def ipv4 (x y z w : Nat) : IPAddr := ⟨.v4, ((x * 256 + y) * 256 + z) * 256 + w⟩

/-- Shorthand for building IPv4 CIDRs in concrete statements. -/
def cidr4 (x y z w p : Nat) : Cidr := ⟨.v4, ((x * 256 + y) * 256 + z) * 256 + w, p⟩


/-- The test file's pool `B`: `1.2.4.0/24` with `AvoidBuggyIPs`. -/
def buggyPool : ConfigPool := ⟨.bgp, [cidr4 1 2 4 0 24], true, true⟩

/-- A fresh allocator configured with only `buggyPool`. -/
def buggyAllocator : Allocator := ⟨[("test2", buggyPool)], []⟩

/-- The spec's reconfig-shrink scenario state: pool `test = 1.2.3.0/30` with
`s1` holding `1.2.3.0`. -/
def shrinkAllocator : Allocator :=
  ⟨[("test", ⟨.bgp, [cidr4 1 2 3 0 30], false, true⟩)],
   [("s1", ⟨"test", ipv4 1 2 3 0, [], ⟨"", ""⟩⟩)]⟩

/-- The shrunken pool map `{test: 1.2.3.2/31}` of the reconfig scenario. -/
def shrinkPools : List (String × ConfigPool) :=
  [("test", ⟨.bgp, [cidr4 1 2 3 2 31], false, true⟩)]

/-- The test file's IPAM pool (`Protocol: IPAM`, auto-assign, no CIDRs). -/
def ipamPool : ConfigPool := ⟨.ipam, [], false, true⟩

/-- The `TestUnAllocation` state: `s1` holds `1.2.3.4` reserved from the IPAM
pool `test`. -/
def ipamAllocator : Allocator :=
  ⟨[("test", ipamPool)], [("s1", ⟨"test", ipv4 1 2 3 4, [], ⟨"", ""⟩⟩)]⟩

/-- The assignment-test state just before the ports change: `s4` and `s3`
share `1.2.4.3` with key `(share, backend)` and ports `tcp/80`, `tcp/443`. -/
def sharedState : Allocator :=
  ⟨[("test2", buggyPool)],
   [("s4", ⟨"test2", ipv4 1 2 4 3, [⟨"tcp", 80⟩], ⟨"share", "backend"⟩⟩),
    ("s3", ⟨"test2", ipv4 1 2 4 3, [⟨"tcp", 443⟩], ⟨"share", "backend"⟩⟩)]⟩

/-! ### Association-list lemmas -/

theorem lookupA_mem {α : Type} (l : List (String × α)) (k : String) (v : α)
    (h : lookupA l k = some v) : (k, v) ∈ l := by
  induction l with
  | nil => simp [lookupA] at h
  | cons hd tl ih =>
    obtain ⟨k1, v1⟩ := hd
    simp only [lookupA] at h
    split at h
    · rename_i hk
      cases h
      simp_all
    · exact List.mem_cons_of_mem _ (ih h)

theorem mem_updateA {α : Type} (l : List (String × α)) (k : String) (v : α)
    (kv : String × α) (h : kv ∈ updateA l k v) : kv = (k, v) ∨ kv ∈ l := by
  induction l with
  | nil => simp [updateA] at h; simp [h]
  | cons hd tl ih =>
    obtain ⟨k1, v1⟩ := hd
    simp only [updateA] at h
    split at h
    · rcases List.mem_cons.mp h with h1 | h1
      · exact Or.inl h1
      · exact Or.inr (List.mem_cons_of_mem _ h1)
    · rcases List.mem_cons.mp h with h1 | h1
      · exact Or.inr (by simp [h1])
      · rcases ih h1 with h2 | h2
        · exact Or.inl h2
        · exact Or.inr (List.mem_cons_of_mem _ h2)

theorem keys_mem_updateA {α : Type} (l : List (String × α)) (k : String) (v : α)
    (x : String) (h : x ∈ (updateA l k v).map Prod.fst) :
    x = k ∨ x ∈ l.map Prod.fst := by
  obtain ⟨kv, hkv, hx⟩ := List.mem_map.mp h
  rcases mem_updateA l k v kv hkv with h1 | h1
  · subst h1; exact Or.inl hx.symm
  · exact Or.inr (List.mem_map.mpr ⟨kv, h1, hx⟩)

theorem keys_updateA_nodup {α : Type} (l : List (String × α)) (k : String) (v : α)
    (h : (l.map Prod.fst).Nodup) : ((updateA l k v).map Prod.fst).Nodup := by
  induction l with
  | nil => simp [updateA]
  | cons hd tl ih =>
    obtain ⟨k1, v1⟩ := hd
    simp only [List.map_cons, List.nodup_cons] at h
    simp only [updateA]
    split
    · rename_i hk
      simp only [List.map_cons, List.nodup_cons]
      exact ⟨by simpa [(beq_iff_eq.mp hk)] using h.1, h.2⟩
    · rename_i hk
      simp only [List.map_cons, List.nodup_cons]
      refine ⟨fun hmem => ?_, ih h.2⟩
      rcases keys_mem_updateA tl k v k1 hmem with h1 | h1
      · exact hk (beq_iff_eq.mpr h1)
      · exact h.1 h1

theorem lookupA_updateA_self {α : Type} (l : List (String × α)) (k : String) (v : α) :
    lookupA (updateA l k v) k = some v := by
  induction l with
  | nil => simp [updateA, lookupA]
  | cons hd tl ih =>
    obtain ⟨k1, v1⟩ := hd
    simp only [updateA]
    split
    · simp [lookupA]
    · rename_i hk
      simpa [lookupA, hk] using ih

theorem updateA_updateA {α : Type} (l : List (String × α)) (k : String) (v : α) :
    updateA (updateA l k v) k v = updateA l k v := by
  induction l with
  | nil => simp [updateA]
  | cons hd tl ih =>
    obtain ⟨k1, v1⟩ := hd
    simp only [updateA]
    split
    · simp [updateA]
    · rename_i hk
      simp [updateA, hk, ih]

theorem filter_updateA {α : Type} (l : List (String × α)) (k : String) (v : α)
    (p : String × α → Bool) (hp : ∀ w : α, p (k, w) = false) :
    (updateA l k v).filter p = l.filter p := by
  induction l with
  | nil => simp [updateA, List.filter, hp]
  | cons hd tl ih =>
    obtain ⟨k1, v1⟩ := hd
    simp only [updateA]
    split
    · rename_i hk
      have hk1 : k1 = k := beq_iff_eq.mp hk
      subst hk1
      simp [List.filter, hp]
    · simp only [List.filter]
      cases hcase : p (k1, v1) <;> simp [ih]

theorem eq_of_keysNodup {α : Type} (l : List (String × α))
    (h : (l.map Prod.fst).Nodup) (x y : String × α) (hx : x ∈ l) (hy : y ∈ l)
    (hxy : x.1 = y.1) : x = y := by
  induction l with
  | nil => cases hx
  | cons hd tl ih =>
    simp only [List.map_cons, List.nodup_cons] at h
    rcases List.mem_cons.mp hx with h1 | h1 <;> rcases List.mem_cons.mp hy with h2 | h2
    · rw [h1, h2]
    · exact absurd (List.mem_map.mpr ⟨y, h2, (by rw [← hxy, h1])⟩) h.1
    · exact absurd (List.mem_map.mpr ⟨x, h1, (by rw [hxy, h2])⟩) h.1
    · exact ih h.2 h1 h2

theorem sharedPorts_comm (xs ys : List Port) : sharedPorts xs ys = sharedPorts ys xs := by
  apply Bool.eq_iff_iff.mpr
  simp only [sharedPorts, List.any_eq_true, beq_iff_eq]
  constructor
  · rintro ⟨p, hp, q, hq, rfl⟩
    exact ⟨p, hq, p, hp, rfl⟩
  · rintro ⟨p, hp, q, hq, rfl⟩
    exact ⟨p, hq, p, hp, rfl⟩

/-! ### Reverse-index and sharing-check lemmas -/

theorem mem_othersOnIP (a : Allocator) (svc : String) (ip : IPAddr)
    (kv : String × Alloc) :
    kv ∈ othersOnIP a svc ip ↔ kv ∈ a.allocated ∧ kv.2.ip = ip ∧ kv.1 ≠ svc := by
  simp only [othersOnIP, List.mem_filter, Bool.and_eq_true, beq_iff_eq, bne_iff_ne]

theorem othersOnIP_ne_nil (a : Allocator) (svc : String) (ip : IPAddr)
    (kv : String × Alloc) (h : kv ∈ a.allocated) (hip : kv.2.ip = ip)
    (hsvc : kv.1 ≠ svc) : othersOnIP a svc ip ≠ [] := by
  intro hnil
  have := (mem_othersOnIP a svc ip kv).mpr ⟨h, hip, hsvc⟩
  rw [hnil] at this
  cases this

/-- What a passing sharing check says about each other holder of the IP. -/
theorem checkSharing_none_mem (a : Allocator) (svc : String) (ip : IPAddr)
    (ports : List Port) (sk : Key) (h : checkSharing a svc ip ports sk = none)
    (kv : String × Alloc) (hkv : kv ∈ othersOnIP a svc ip) :
    kv.2.key.sharing ≠ "" ∧ sk.sharing ≠ "" ∧ sharedPorts ports kv.2.ports = false ∧
    (KeysNodup a → SharingInvariant a → kv.2.key = sk) := by
  unfold checkSharing at h
  split at h
  · rename_i heq
    rw [heq] at hkv
    cases hkv
  · rename_i fo rest heq
    have hkv2 : kv ∈ fo :: rest := by rw [← heq]; exact hkv
    split at h
    · cases h
    rename_i hne
    split at h
    · cases h
    rename_i hsk
    split at h
    · split at h <;> cases h
    rename_i hkey
    split at h
    · cases h
    rename_i hports
    simp only [List.any_eq_true, not_exists, not_and, Bool.not_eq_true] at hne hports
    have hkvE := hne kv hkv2
    have hp := hports kv hkv2
    refine ⟨by simpa using hkvE, by simpa using hsk, hp, fun hnd hsi => ?_⟩
    have hfo : fo ∈ othersOnIP a svc ip := by rw [heq]; exact List.mem_cons_self _ _
    have hfm := (mem_othersOnIP a svc ip fo).mp hfo
    have hkm := (mem_othersOnIP a svc ip kv).mp hkv
    have hskfo : sk = fo.2.key := by
      by_contra hc
      exact hkey (bne_iff_ne.mpr hc)
    by_cases hsame : kv.1 = fo.1
    · have := eq_of_keysNodup a.allocated hnd kv fo hkm.1 hfm.1 hsame
      rw [this, hskfo]
    · have := hsi kv hkm.1 fo hfm.1 hsame (by rw [hkm.2.1, hfm.2.1])
      rw [this.1, hskfo]

theorem checkSharing_nil (a : Allocator) (svc : String) (ip : IPAddr)
    (ports : List Port) (sk : Key) (h : othersOnIP a svc ip = []) :
    checkSharing a svc ip ports sk = none := by
  unfold checkSharing
  rw [h]

/-- The sharing check depends only on the derived reverse index and the
caller's own assignment. -/
theorem checkSharing_congr (a b : Allocator) (svc : String) (ip : IPAddr)
    (ports : List Port) (sk : Key)
    (hoth : othersOnIP b svc ip = othersOnIP a svc ip)
    (hself : ((lookupA b.allocated svc).any fun al => al.ip == ip) =
             ((lookupA a.allocated svc).any fun al => al.ip == ip)) :
    checkSharing b svc ip ports sk = checkSharing a svc ip ports sk := by
  unfold checkSharing
  rw [hoth, hself]

/-! ### `doAssign` and `Assign` basic behaviour -/

theorem doAssign_error_state (a : Allocator) (svc pn : String) (ip : IPAddr)
    (ports : List Port) (sk : Key) (rOk : Bool) (e : Err)
    (h : (a.doAssign svc pn ip ports sk rOk).1 = some e) :
    (a.doAssign svc pn ip ports sk rOk).2 = a := by
  unfold Allocator.doAssign at h ⊢
  split at h
  · rfl
  · split at h
    · rename_i hrel
      rw [if_pos hrel]
    · simp at h

theorem doAssign_success (a : Allocator) (svc pn : String) (ip : IPAddr)
    (ports : List Port) (sk : Key) (rOk : Bool)
    (hcs : checkSharing a svc ip ports sk = none)
    (hrel : (needsIpamRelease a svc ip && !rOk) = false) :
    a.doAssign svc pn ip ports sk rOk =
      (none, { a with allocated := updateA a.allocated svc ⟨pn, ip, ports, sk⟩ }) := by
  unfold Allocator.doAssign
  simp [hcs, hrel]

theorem doAssign_success_inv (a : Allocator) (svc pn : String) (ip : IPAddr)
    (ports : List Port) (sk : Key) (rOk : Bool) (a1 : Allocator)
    (h : a.doAssign svc pn ip ports sk rOk = (none, a1)) :
    checkSharing a svc ip ports sk = none ∧
    a1 = { a with allocated := updateA a.allocated svc ⟨pn, ip, ports, sk⟩ } := by
  unfold Allocator.doAssign at h
  split at h
  · rename_i e heq
    cases h
  · rename_i hcs
    split at h
    · simp at h
    · injection h with h1 h2
      exact ⟨hcs, h2.symm⟩

/-! ### Invariant preservation -/

theorem othersOnIP_updateA (a : Allocator) (svc : String) (ip : IPAddr) (v : Alloc) :
    othersOnIP { a with allocated := updateA a.allocated svc v } svc ip =
      othersOnIP a svc ip := by
  unfold othersOnIP
  exact filter_updateA a.allocated svc v _ (fun w => by simp)

theorem sharingInv_update (a : Allocator) (svc pn : String) (ip : IPAddr)
    (ports : List Port) (sk : Key)
    (hnd : KeysNodup a) (hsi : SharingInvariant a)
    (hcs : checkSharing a svc ip ports sk = none) :
    SharingInvariant { a with allocated := updateA a.allocated svc ⟨pn, ip, ports, sk⟩ } := by
  intro kv1 h1 kv2 h2 hne hip
  simp only at h1 h2 hip
  rcases mem_updateA _ _ _ _ h1 with e1 | m1 <;> rcases mem_updateA _ _ _ _ h2 with e2 | m2
  · rw [e1, e2] at hne
    exact absurd rfl hne
  · subst e1
    have hm : kv2 ∈ othersOnIP a svc ip := by
      refine (mem_othersOnIP _ _ _ _).mpr ⟨m2, ?_, ?_⟩
      · exact hip.symm
      · intro hc
        exact hne (by rw [hc])
    obtain ⟨hne2, hsk2, hp2, hkey2⟩ := checkSharing_none_mem a svc ip ports sk hcs kv2 hm
    exact ⟨(hkey2 hnd hsi).symm, hsk2, hp2⟩
  · subst e2
    have hm : kv1 ∈ othersOnIP a svc ip := by
      refine (mem_othersOnIP _ _ _ _).mpr ⟨m1, ?_, ?_⟩
      · exact hip
      · intro hc
        exact hne (by rw [hc])
    obtain ⟨hne1, hsk1, hp1, hkey1⟩ := checkSharing_none_mem a svc ip ports sk hcs kv1 hm
    refine ⟨hkey1 hnd hsi, ?_, ?_⟩
    · rw [hkey1 hnd hsi]
      exact hsk1
    · rw [← sharedPorts_comm]
      exact hp1
  · exact hsi kv1 m1 kv2 m2 hne hip

theorem doAssign_preserves (a : Allocator) (svc pn : String) (ip : IPAddr)
    (ports : List Port) (sk : Key) (rOk : Bool)
    (hInv : AllocInv a)
    (hval : allocValid a.pools (svc, ⟨pn, ip, ports, sk⟩) = true) :
    AllocInv (a.doAssign svc pn ip ports sk rOk).2 := by
  rcases hres : a.doAssign svc pn ip ports sk rOk with ⟨err, a1⟩
  cases err with
  | some e =>
    have h2 := doAssign_error_state a svc pn ip ports sk rOk e (by rw [hres])
    rw [hres] at h2
    simp only at h2 ⊢
    rw [h2]
    exact hInv
  | none =>
    obtain ⟨hcs, ha1⟩ := doAssign_success_inv a svc pn ip ports sk rOk a1 hres
    simp only
    rw [ha1]
    obtain ⟨hnd, hpi, hsi⟩ := hInv
    refine ⟨keys_updateA_nodup _ _ _ hnd, ?_, sharingInv_update a svc pn ip ports sk hnd hsi hcs⟩
    intro kv hkv
    simp only at hkv
    rcases mem_updateA _ _ _ _ hkv with e1 | m1
    · rw [e1]
      exact hval
    · exact hpi kv m1

theorem Assign_eq_noPool (a : Allocator) (svc : String) (ip : IPAddr) (ports : List Port)
    (sh bk : String) (rOk : Bool) (h : a.poolFor ip = none) :
    a.Assign svc ip ports sh bk rOk = (some .noPool, a) := by
  unfold Allocator.Assign
  rw [h]

theorem Assign_eq_doAssign (a : Allocator) (svc : String) (ip : IPAddr) (ports : List Port)
    (sh bk : String) (rOk : Bool) (pn : String) (h : a.poolFor ip = some pn) :
    a.Assign svc ip ports sh bk rOk = a.doAssign svc pn ip ports ⟨sh, bk⟩ rOk := by
  unfold Allocator.Assign
  rw [h]

theorem poolFor_some_allocValid (a : Allocator) (ip : IPAddr) (n : String)
    (h : a.poolFor ip = some n) (al : Alloc) (hip : al.ip = ip) (hpn : al.pool = n)
    (svc : String) : allocValid a.pools (svc, al) = true := by
  unfold Allocator.poolFor at h
  split at h
  · rename_i m hm
    unfold allocValid
    simp only [Bool.or_eq_true]
    left
    rw [hip, hm]
    rfl
  · rename_i hm
    obtain ⟨kv, hfind, hkv⟩ := Option.map_eq_some'.mp h
    have hpred := List.find?_some hfind
    unfold allocValid
    simp only [Bool.or_eq_true]
    right
    have hpool : al.pool = kv.2.pool := by rw [hpn, ← hkv]
    rw [hpool]
    exact ((Bool.and_eq_true _ _).mp hpred).2

theorem assign_preserves (a : Allocator) (svc : String) (ip : IPAddr) (ports : List Port)
    (sh bk : String) (rOk : Bool) (hInv : AllocInv a) :
    AllocInv (a.Assign svc ip ports sh bk rOk).2 := by
  cases hp : a.poolFor ip with
  | none =>
    rw [Assign_eq_noPool a svc ip ports sh bk rOk hp]
    exact hInv
  | some pn =>
    rw [Assign_eq_doAssign a svc ip ports sh bk rOk pn hp]
    exact doAssign_preserves a svc pn ip ports ⟨sh, bk⟩ rOk hInv
      (poolFor_some_allocValid a ip pn hp _ rfl rfl svc)

theorem unassign_preserves (a : Allocator) (svc : String) (hInv : AllocInv a) :
    AllocInv (a.Unassign svc) := by
  obtain ⟨hnd, hpi, hsi⟩ := hInv
  refine ⟨?_, ?_, ?_⟩
  · exact List.Nodup.sublist (List.Sublist.map _ (List.filter_sublist _)) hnd
  · intro kv hkv
    exact hpi kv (List.mem_of_mem_filter hkv)
  · intro kv1 h1 kv2 h2 hne hip
    exact hsi kv1 (List.mem_of_mem_filter h1) kv2 (List.mem_of_mem_filter h2) hne hip

theorem unAllocate_preserves (a : Allocator) (svc : String) (rOk : Bool)
    (hInv : AllocInv a) : AllocInv (a.UnAllocate svc rOk).2 := by
  unfold Allocator.UnAllocate
  split
  · exact hInv
  · split
    · split
      · exact unassign_preserves a svc hInv
      · exact hInv
    · exact unassign_preserves a svc hInv

theorem refreshAlloc_fst (ps : List (String × ConfigPool)) (kv : String × Alloc) :
    (refreshAlloc ps kv).1 = kv.1 := by
  unfold refreshAlloc
  split <;> rfl

theorem refreshAlloc_ip (ps : List (String × ConfigPool)) (kv : String × Alloc) :
    (refreshAlloc ps kv).2.ip = kv.2.ip := by
  unfold refreshAlloc
  split <;> rfl

theorem refreshAlloc_key (ps : List (String × ConfigPool)) (kv : String × Alloc) :
    (refreshAlloc ps kv).2.key = kv.2.key := by
  unfold refreshAlloc
  split <;> rfl

theorem refreshAlloc_ports (ps : List (String × ConfigPool)) (kv : String × Alloc) :
    (refreshAlloc ps kv).2.ports = kv.2.ports := by
  unfold refreshAlloc
  split <;> rfl

theorem refreshAlloc_valid (ps : List (String × ConfigPool)) (kv : String × Alloc)
    (hv : allocValid ps kv = true) : allocValid ps (refreshAlloc ps kv) = true := by
  unfold refreshAlloc
  split
  · rename_i n hn
    unfold allocValid
    simp only [Bool.or_eq_true]
    left
    show (poolForStatic ps kv.2.ip).isSome = true
    rw [hn]
    rfl
  · exact hv

theorem setPools_valid_of_ok (a : Allocator) (ps : List (String × ConfigPool))
    (h : (a.SetPools ps).1 = none) :
    ∀ kv ∈ a.allocated, allocValid ps kv = true := by
  unfold Allocator.SetPools at h
  split at h
  · cases h
  · rename_i hfind
    intro kv hkv
    have := List.find?_eq_none.mp hfind kv hkv
    simpa using this

theorem setPools_preserves (a : Allocator) (ps : List (String × ConfigPool))
    (hInv : AllocInv a) : AllocInv (a.SetPools ps).2 := by
  rcases hres : a.SetPools ps with ⟨err, a1⟩
  cases err with
  | some e =>
    have : a1 = a := by
      unfold Allocator.SetPools at hres
      split at hres
      · injection hres with h1 h2
        exact h2.symm
      · cases hres
    simp only
    rw [this]
    exact hInv
  | none =>
    have hvalid := setPools_valid_of_ok a ps (by rw [hres])
    have ha1 : a1 = { pools := ps, allocated := a.allocated.map (refreshAlloc ps) } := by
      unfold Allocator.SetPools at hres
      split at hres
      · cases hres
      · injection hres with h1 h2
        exact h2.symm
    obtain ⟨hnd, hpi, hsi⟩ := hInv
    simp only
    rw [ha1]
    refine ⟨?_, ?_, ?_⟩
    · unfold KeysNodup
      simp only [List.map_map]
      have : (Prod.fst ∘ refreshAlloc ps) = (Prod.fst : String × Alloc → String) := by
        funext kv
        exact refreshAlloc_fst ps kv
      rw [this]
      exact hnd
    · intro kv hkv
      simp only at hkv
      obtain ⟨kv0, hkv0, rfl⟩ := List.mem_map.mp hkv
      exact refreshAlloc_valid ps kv0 (hvalid kv0 hkv0)
    · intro kv1 h1 kv2 h2 hne hip
      simp only at h1 h2
      obtain ⟨kv10, hm1, rfl⟩ := List.mem_map.mp h1
      obtain ⟨kv20, hm2, rfl⟩ := List.mem_map.mp h2
      rw [refreshAlloc_fst, refreshAlloc_fst] at hne
      rw [refreshAlloc_ip, refreshAlloc_ip] at hip
      have := hsi kv10 hm1 kv20 hm2 hne hip
      rw [refreshAlloc_key, refreshAlloc_key, refreshAlloc_ports, refreshAlloc_ports]
      exact this

theorem tryAddrs_some (a : Allocator) (svc : String) (ports : List Port) (sh bk : String)
    (rOk : Bool) (fam : IPFamily) :
    ∀ (fuel base : Nat) (ip : IPAddr) (a1 : Allocator),
      tryAddrs a svc ports sh bk rOk fam base fuel = some (ip, a1) →
      a.Assign svc ip ports sh bk rOk = (none, a1) := by
  intro fuel
  induction fuel with
  | zero => intro base ip a1 h; simp [tryAddrs] at h
  | succ n ih =>
    intro base ip a1 h
    unfold tryAddrs at h
    split at h
    · rename_i a2 heq
      injection h with h1
      injection h1 with h2 h3
      rw [h2, h3] at heq
      exact heq
    · exact ih (base + 1) ip a1 h

theorem tryCidrs_some (a : Allocator) (svc : String) (ports : List Port) (sh bk : String)
    (rOk : Bool) (v6 : Bool) :
    ∀ (cl : List Cidr) (ip : IPAddr) (a1 : Allocator),
      tryCidrs a svc ports sh bk rOk v6 cl = some (ip, a1) →
      a.Assign svc ip ports sh bk rOk = (none, a1) := by
  intro cl
  induction cl with
  | nil => intro ip a1 h; simp [tryCidrs] at h
  | cons c rest ih =>
    intro ip a1 h
    unfold tryCidrs at h
    split at h
    · split at h
      · rename_i r heq
        injection h with h1
        rw [h1] at heq
        exact tryAddrs_some a svc ports sh bk rOk c.family c.size c.firstAddr ip a1 heq
      · exact ih ip a1 h
    · exact ih ip a1 h

theorem allocateFromPool_preserves (a : Allocator) (svc : String) (v6 : Bool) (pn : String)
    (ports : List Port) (sh bk : String) (rOk : Bool) (resv : Option (List IPAddr))
    (hInv : AllocInv a) :
    AllocInv (a.AllocateFromPool svc v6 pn ports sh bk rOk resv).2 := by
  unfold Allocator.AllocateFromPool
  split
  · exact hInv
  · rename_i p hlook
    split
    · rename_i hipam
      split
      · exact hInv
      · rename_i ip
        split
        · rename_i a1 heq
          simp only
          have hval : allocValid a.pools (svc, ⟨pn, ip, ports, ⟨sh, bk⟩⟩) = true := by
            unfold allocValid
            simp only [Bool.or_eq_true]
            right
            show ((lookupA a.pools pn).any fun q => q.Protocol == .ipam) = true
            rw [hlook]
            simpa using hipam
          have := doAssign_preserves a svc pn ip ports ⟨sh, bk⟩ rOk hInv hval
          rw [heq] at this
          exact this
        · exact hInv
      · exact hInv
    · split
      · exact hInv
      · split
        · rename_i ip a1 heq
          simp only
          have := assign_preserves a svc ip ports sh bk rOk hInv
          rw [tryCidrs_some a svc ports sh bk rOk v6 _ ip a1 heq] at this
          exact this
        · exact hInv

theorem allocateLoop_preserves (a : Allocator) (svc : String) (v6 : Bool)
    (ports : List Port) (sh bk : String) (rOk : Bool)
    (reserve : String → Option (List IPAddr)) (hInv : AllocInv a) :
    ∀ pl : List (String × ConfigPool),
      AllocInv (allocateLoop a svc v6 ports sh bk rOk reserve pl).2 := by
  intro pl
  induction pl with
  | nil => exact hInv
  | cons hd rest ih =>
    obtain ⟨name, p⟩ := hd
    unfold allocateLoop
    split
    · exact ih
    · split
      · rename_i ip a1 heq
        simp only
        have := allocateFromPool_preserves a svc v6 name ports sh bk rOk (reserve name) hInv
        rw [heq] at this
        exact this
      · exact ih

theorem allocate_preserves (a : Allocator) (svc : String) (v6 : Bool) (ports : List Port)
    (sh bk : String) (rOk : Bool) (reserve : String → Option (List IPAddr))
    (hInv : AllocInv a) :
    AllocInv (a.Allocate svc v6 ports sh bk rOk reserve).2 := by
  unfold Allocator.Allocate
  split
  · rename_i al hal
    split
    · exact hInv
    · split
      · rename_i a1 heq
        simp only
        have := assign_preserves a svc al.ip ports sh bk rOk hInv
        rw [heq] at this
        exact this
      · exact allocateLoop_preserves (a.Unassign svc) svc v6 ports sh bk rOk reserve
          (unassign_preserves a svc hInv) a.pools
  · exact allocateLoop_preserves a svc v6 ports sh bk rOk reserve hInv a.pools

theorem new_inv : AllocInv New := by
  refine ⟨?_, ?_, ?_⟩
  · simp [KeysNodup, New]
  · intro kv hkv
    cases hkv
  · intro kv1 h1
    cases h1

/-- Every reachable allocator state satisfies the internal invariant. -/
theorem reachable_inv (a : Allocator) (h : Reachable a) : AllocInv a := by
  induction h with
  | new => exact new_inv
  | setPools ps _ ih => exact setPools_preserves _ ps ih
  | assign svc ip ports sh bk rOk _ ih => exact assign_preserves _ svc ip ports sh bk rOk ih
  | unassign svc _ ih => exact unassign_preserves _ svc ih
  | unAllocate svc rOk _ ih => exact unAllocate_preserves _ svc rOk ih
  | allocate svc v6 ports sh bk rOk reserve _ ih =>
    exact allocate_preserves _ svc v6 ports sh bk rOk reserve ih
  | allocateFromPool svc v6 pn ports sh bk rOk reserve _ ih =>
    exact allocateFromPool_preserves _ svc v6 pn ports sh bk rOk reserve ih

/-! ### Branch characterizations of the sharing check -/

theorem checkSharing_inUse_holder (a : Allocator) (svc : String) (ip : IPAddr)
    (ports : List Port) (sk : Key) (fo : String × Alloc) (rest : List (String × Alloc))
    (heq : othersOnIP a svc ip = fo :: rest)
    (hany : ((fo :: rest).any fun kv => kv.2.key.sharing == "") = true) :
    checkSharing a svc ip ports sk = some .inUse := by
  unfold checkSharing
  rw [heq]
  simp [hany]

theorem checkSharing_inUse_caller (a : Allocator) (svc : String) (ip : IPAddr)
    (ports : List Port) (sk : Key) (fo : String × Alloc) (rest : List (String × Alloc))
    (heq : othersOnIP a svc ip = fo :: rest)
    (hany : ((fo :: rest).any fun kv => kv.2.key.sharing == "") = false)
    (hsk : (sk.sharing == "") = true) :
    checkSharing a svc ip ports sk = some .inUse := by
  unfold checkSharing
  rw [heq]
  simp [hany, hsk]

theorem checkSharing_mismatch (a : Allocator) (svc : String) (ip : IPAddr)
    (ports : List Port) (sk : Key) (fo : String × Alloc) (rest : List (String × Alloc))
    (heq : othersOnIP a svc ip = fo :: rest)
    (hany : ((fo :: rest).any fun kv => kv.2.key.sharing == "") = false)
    (hsk : (sk.sharing == "") = false)
    (hne : (sk != fo.2.key) = true)
    (hself : ((lookupA a.allocated svc).any fun al => al.ip == ip) = false) :
    checkSharing a svc ip ports sk = some .sharingMismatch := by
  unfold checkSharing
  rw [heq]
  simp [hany, hsk, hne, hself]

theorem checkSharing_frozen (a : Allocator) (svc : String) (ip : IPAddr)
    (ports : List Port) (sk : Key) (fo : String × Alloc) (rest : List (String × Alloc))
    (heq : othersOnIP a svc ip = fo :: rest)
    (hany : ((fo :: rest).any fun kv => kv.2.key.sharing == "") = false)
    (hsk : (sk.sharing == "") = false)
    (hne : (sk != fo.2.key) = true)
    (hself : ((lookupA a.allocated svc).any fun al => al.ip == ip) = true) :
    checkSharing a svc ip ports sk = some .sharingFrozen := by
  unfold checkSharing
  rw [heq]
  simp [hany, hsk, hne, hself]

theorem checkSharing_portConflict (a : Allocator) (svc : String) (ip : IPAddr)
    (ports : List Port) (sk : Key) (fo : String × Alloc) (rest : List (String × Alloc))
    (heq : othersOnIP a svc ip = fo :: rest)
    (hany : ((fo :: rest).any fun kv => kv.2.key.sharing == "") = false)
    (hsk : (sk.sharing == "") = false)
    (hne : (sk != fo.2.key) = false)
    (hports : ((fo :: rest).any fun kv => sharedPorts ports kv.2.ports) = true) :
    checkSharing a svc ip ports sk = some .portConflict := by
  unfold checkSharing
  rw [heq]
  simp [hany, hsk, hne, hports]

theorem checkSharing_ok (a : Allocator) (svc : String) (ip : IPAddr)
    (ports : List Port) (sk : Key) (fo : String × Alloc) (rest : List (String × Alloc))
    (heq : othersOnIP a svc ip = fo :: rest)
    (hany : ((fo :: rest).any fun kv => kv.2.key.sharing == "") = false)
    (hsk : (sk.sharing == "") = false)
    (hne : (sk != fo.2.key) = false)
    (hports : ((fo :: rest).any fun kv => sharedPorts ports kv.2.ports) = false) :
    checkSharing a svc ip ports sk = none := by
  unfold checkSharing
  rw [heq]
  simp [hany, hsk, hne, hports]

theorem doAssign_fst_some (a : Allocator) (svc pn : String) (ip : IPAddr)
    (ports : List Port) (sk : Key) (rOk : Bool) (e : Err)
    (h : checkSharing a svc ip ports sk = some e) :
    (a.doAssign svc pn ip ports sk rOk).1 = some e := by
  unfold Allocator.doAssign
  rw [h]

/-- A valid live assignment guarantees full pool identification succeeds for
its address. -/
theorem allocValid_poolFor (a : Allocator) (kv : String × Alloc)
    (hkv : kv ∈ a.allocated) (hval : allocValid a.pools kv = true) :
    ∃ pn, a.poolFor kv.2.ip = some pn := by
  unfold allocValid at hval
  unfold Allocator.poolFor
  cases hstat : poolForStatic a.pools kv.2.ip with
  | some n => exact ⟨n, rfl⟩
  | none =>
    rw [hstat] at hval
    simp only [Option.isSome_none, Bool.false_or] at hval
    have hex : ∃ x ∈ a.allocated,
        (x.2.ip == kv.2.ip && (lookupA a.pools x.2.pool).any fun p => p.Protocol == .ipam) = true := by
      refine ⟨kv, hkv, ?_⟩
      simp [hval]
    obtain ⟨x, hx⟩ := Option.isSome_iff_exists.mp (List.find?_isSome.mpr hex)
    refine ⟨x.2.pool, ?_⟩
    show (a.allocated.find? fun y =>
        y.2.ip == kv.2.ip && (lookupA a.pools y.2.pool).any fun p => p.Protocol == .ipam).map
        (fun y => y.2.pool) = some x.2.pool
    rw [hx]
    rfl

/-! ### Claim theorems -/

/-- C10: every `Assign` call that returns an error leaves the allocator state
completely unchanged - in particular `IP(s)` afterwards equals `IP(s)` before
the call, so a failed `Assign` never records the requested IP for the service
and never disturbs its existing assignment. -/
theorem assign_error_frame (a : Allocator) (svc : String) (ip : IPAddr)
    (ports : List Port) (sh bk : String) (rOk : Bool) (e : Err)
    (h : (a.Assign svc ip ports sh bk rOk).1 = some e) :
    (a.Assign svc ip ports sh bk rOk).2 = a ∧
    ((a.Assign svc ip ports sh bk rOk).2).IP svc = a.IP svc := by
  have hstate : (a.Assign svc ip ports sh bk rOk).2 = a := by
    unfold Allocator.Assign at h ⊢
    split at h
    · rfl
    · exact doAssign_error_state _ _ _ _ _ _ _ _ h
  exact ⟨hstate, by rw [hstate]⟩

/-- Witness for C10 at a concrete input: a fresh allocator has no pools, so
assigning `1.2.3.4` fails with *no-pool* and the state stays `New`. -/
theorem assign_error_frame_witness :
    (New.Assign "s1" (ipv4 1 2 3 4) [] "" "" true).2 = New ∧
    ((New.Assign "s1" (ipv4 1 2 3 4) [] "" "" true).2).IP "s1" = New.IP "s1" :=
  assign_error_frame New "s1" (ipv4 1 2 3 4) [] "" "" true .noPool (by decide)

/-- C5: a pool with `AvoidBuggyIPs` does not contain any IPv4 address with
last octet 0 or 255 even when a CIDR covers it, so `Assign` of such an
address fails with *no-pool*, while `Assign` of a non-buggy address of the
same CIDR (here against an otherwise empty allocator whose only pool it is)
succeeds. -/
theorem avoidBuggy_excludes (a : Allocator) (n : String) (p : ConfigPool) (c : Cidr)
    (svc : String) (ports : List Port) (sh bk : String) (rOk : Bool) (ip1 ip2 : IPAddr)
    (hpools : a.pools = [(n, p)]) (halloc : a.allocated = [])
    (havoid : p.AvoidBuggyIPs = true) (hc : c ∈ p.CIDR)
    (hin1 : c.contains ip1 = true) (hb1 : ipConfusesBuggyFirmwares ip1 = true)
    (hin2 : c.contains ip2 = true) (hb2 : ipConfusesBuggyFirmwares ip2 = false) :
    poolContains p ip1 = false ∧
    (a.Assign svc ip1 ports sh bk rOk).1 = some .noPool ∧
    (a.Assign svc ip2 ports sh bk rOk).1 = none := by
  have hpc1 : poolContains p ip1 = false := by
    unfold poolContains
    rw [havoid, hb1]
    rfl
  have hpf1 : a.poolFor ip1 = none := by
    unfold Allocator.poolFor
    rw [hpools, halloc]
    simp [poolForStatic, hpc1]
  have hpc2 : poolContains p ip2 = true := by
    unfold poolContains
    rw [havoid, hb2]
    simp only [Bool.and_false, Bool.not_false, Bool.true_and, List.any_eq_true]
    exact ⟨c, hc, hin2⟩
  have hpf2 : a.poolFor ip2 = some n := by
    unfold Allocator.poolFor
    rw [hpools]
    simp [poolForStatic, hpc2]
  refine ⟨hpc1, ?_, ?_⟩
  · rw [Assign_eq_noPool a svc ip1 ports sh bk rOk hpf1]
  · rw [Assign_eq_doAssign a svc ip2 ports sh bk rOk n hpf2]
    have hcs : checkSharing a svc ip2 ports ⟨sh, bk⟩ = none := by
      apply checkSharing_nil
      unfold othersOnIP
      rw [halloc]
      rfl
    have hrel : (needsIpamRelease a svc ip2 && !rOk) = false := by
      unfold needsIpamRelease
      rw [halloc]
      rfl
    rw [doAssign_success a svc n ip2 ports ⟨sh, bk⟩ rOk hcs hrel]

/-- Witness for C5 at the test's pool `B` (`1.2.4.0/24`, `AvoidBuggyIPs`):
`1.2.4.0` is excluded and rejected with *no-pool*, `1.2.4.254` assigns. -/
theorem avoidBuggy_excludes_witness :
    poolContains buggyPool (ipv4 1 2 4 0) = false ∧
    (buggyAllocator.Assign "s3" (ipv4 1 2 4 0) [] "" "" true).1 = some .noPool ∧
    (buggyAllocator.Assign "s3" (ipv4 1 2 4 254) [] "" "" true).1 = none :=
  avoidBuggy_excludes buggyAllocator "test2" buggyPool (cidr4 1 2 4 0 24) "s3" [] "" "" true
    (ipv4 1 2 4 0) (ipv4 1 2 4 254) rfl rfl rfl (by decide) (by decide) (by decide)
    (by decide) (by decide)

/-- C2: when some live, non-IPAM assignment's address is contained in no pool
of the proposed new map (including the case where the only covering pool
newly classifies the address as buggy, which `poolForStatic` accounts for via
`poolContains`), `SetPools` returns a *config-invalid* error naming some
offending service, and the allocator state - the pool map, all assignments,
and therefore `IP(s)` and `Pool(s)` for every service - is completely
unchanged. -/
theorem setPools_invalid_rejects (a : Allocator) (ps : List (String × ConfigPool))
    (kv : String × Alloc) (hkv : kv ∈ a.allocated)
    (hstat : poolForStatic ps kv.2.ip = none)
    (hipam : ((lookupA ps kv.2.pool).any fun p => p.Protocol == .ipam) = false) :
    ∃ s, a.SetPools ps = (some (.configInvalid s), a) := by
  have hbad : allocValid ps kv = false := by
    unfold allocValid
    rw [hstat, hipam]
    rfl
  have hex : ∃ x ∈ a.allocated, (!allocValid ps x) = true := ⟨kv, hkv, by rw [hbad]; rfl⟩
  obtain ⟨x, hx⟩ := Option.isSome_iff_exists.mp (List.find?_isSome.mpr hex)
  refine ⟨x.1, ?_⟩
  unfold Allocator.SetPools
  rw [hx]

/-- Witness for C2 at the spec's reconfig-shrink scenario: with `s1 → 1.2.3.0`
live from pool `1.2.3.0/30`, `SetPools({test: 1.2.3.2/31})` is rejected with
*config-invalid* and the prior state remains. -/
theorem setPools_invalid_rejects_witness :
    ∃ s, shrinkAllocator.SetPools shrinkPools =
      (some (.configInvalid s), shrinkAllocator) :=
  setPools_invalid_rejects shrinkAllocator shrinkPools
    ("s1", ⟨"test", ipv4 1 2 3 0, [], ⟨"", ""⟩⟩) (by decide) (by decide) (by decide)

/-- C6: `UnAllocate` on a service whose assignment's pool is an IPAM pool
releases the reservation: a failed agent release surfaces *ipam-error* and
leaves the in-memory assignment untouched (`IP(s)` unchanged), so the call is
retriable, while a successful release behaves like `Unassign`; on a non-IPAM
pool `UnAllocate` is exactly `Unassign` and returns no error for any agent
outcome. -/
theorem unAllocate_release (a : Allocator) (svc : String) (al : Alloc) (p : ConfigPool)
    (h1 : lookupA a.allocated svc = some al)
    (h2 : lookupA a.pools al.pool = some p) :
    (p.Protocol = .ipam →
      a.UnAllocate svc false = (some .ipamError, a) ∧
      ((a.UnAllocate svc false).2).IP svc = a.IP svc ∧
      a.UnAllocate svc true = (none, a.Unassign svc)) ∧
    (p.Protocol ≠ .ipam →
      ∀ rOk, a.UnAllocate svc rOk = (none, a.Unassign svc)) := by
  constructor
  · intro hipam
    have hcond : ((lookupA a.pools al.pool).any fun q => q.Protocol == .ipam) = true := by
      rw [h2]
      simpa using hipam
    have hfail : a.UnAllocate svc false = (some .ipamError, a) := by
      unfold Allocator.UnAllocate
      rw [h1]
      simp [hcond]
    refine ⟨hfail, by rw [hfail], ?_⟩
    unfold Allocator.UnAllocate
    rw [h1]
    simp [hcond]
  · intro hipam rOk
    have hcond : ((lookupA a.pools al.pool).any fun q => q.Protocol == .ipam) = false := by
      rw [h2]
      simpa using hipam
    unfold Allocator.UnAllocate
    rw [h1]
    simp [hcond]

/-- Witness for C6 at the test's IPAM scenario: `s1` holds `1.2.3.4` from the
IPAM pool `test`; a failed release errors and keeps the assignment, a
successful one unassigns. -/
theorem unAllocate_release_witness :
    (ipamPool.Protocol = .ipam →
      ipamAllocator.UnAllocate "s1" false = (some .ipamError, ipamAllocator) ∧
      ((ipamAllocator.UnAllocate "s1" false).2).IP "s1" = ipamAllocator.IP "s1" ∧
      ipamAllocator.UnAllocate "s1" true = (none, ipamAllocator.Unassign "s1")) ∧
    (ipamPool.Protocol ≠ .ipam →
      ∀ rOk, ipamAllocator.UnAllocate "s1" rOk = (none, ipamAllocator.Unassign "s1")) :=
  unAllocate_release ipamAllocator "s1" ⟨"test", ipv4 1 2 3 4, [], ⟨"", ""⟩⟩ ipamPool
    (by decide) (by decide)

theorem find?_updateA {α : Type} (l : List (String × α)) (svc : String) (v : α)
    (p : String × α → Bool) (f : String × α → String) (c : String)
    (hp : p (svc, v) = true) (hf : f (svc, v) = c)
    (hall : ∀ kv, l.find? p = some kv → f kv = c) :
    ((updateA l svc v).find? p).map f = some c := by
  induction l with
  | nil =>
    simp only [updateA]
    rw [List.find?_cons_of_pos _ hp]
    simp [hf]
  | cons hd tl ih =>
    obtain ⟨k1, v1⟩ := hd
    simp only [updateA]
    split
    · rw [List.find?_cons_of_pos _ hp]
      simp [hf]
    · by_cases h1 : p (k1, v1) = true
      · rw [List.find?_cons_of_pos _ h1]
        have := hall (k1, v1) (by rw [List.find?_cons_of_pos _ h1])
        simp [this]
      · have h1f : ¬ p (k1, v1) = true := h1
        rw [List.find?_cons_of_neg _ h1f]
        apply ih
        intro kv hkv
        apply hall
        rw [List.find?_cons_of_neg _ h1f]
        exact hkv

theorem poolFor_updateA (a : Allocator) (svc : String) (v : Alloc)
    (h : a.poolFor v.ip = some v.pool) :
    ({ a with allocated := updateA a.allocated svc v } : Allocator).poolFor v.ip =
      some v.pool := by
  unfold Allocator.poolFor at h ⊢
  simp only
  split at h
  · exact h
  · rename_i hm
    obtain ⟨kv, hfind, hkv⟩ := Option.map_eq_some'.mp h
    have hpred := List.find?_some hfind
    apply find?_updateA
    · show (v.ip == v.ip && (lookupA a.pools v.pool).any fun p => p.Protocol == .ipam) = true
      have h2 := ((Bool.and_eq_true _ _).mp hpred).2
      rw [hkv] at h2
      simp [h2]
    · rfl
    · intro kv2 hkv2
      rw [hfind] at hkv2
      injection hkv2 with h3
      rw [← h3]
      exact hkv

theorem checkSharing_none_parts (a : Allocator) (svc : String) (ip : IPAddr)
    (ports : List Port) (sk : Key) (fo : String × Alloc) (rest : List (String × Alloc))
    (h : checkSharing a svc ip ports sk = none)
    (heq : othersOnIP a svc ip = fo :: rest) :
    ((fo :: rest).any fun kv => kv.2.key.sharing == "") = false ∧
    (sk.sharing == "") = false ∧
    (sk != fo.2.key) = false ∧
    ((fo :: rest).any fun kv => sharedPorts ports kv.2.ports) = false := by
  unfold checkSharing at h
  split at h
  · rename_i h0
    rw [heq] at h0
    cases h0
  · rename_i fo2 rest2 h0
    rw [heq] at h0
    injection h0 with h1 h2
    subst h1
    subst h2
    split at h
    · cases h
    rename_i hany
    split at h
    · cases h
    rename_i hsk
    split at h
    · split at h <;> cases h
    rename_i hne
    split at h
    · cases h
    rename_i hports
    exact ⟨Bool.not_eq_true _ ▸ (by simpa using hany),
           Bool.not_eq_true _ ▸ (by simpa using hsk),
           Bool.not_eq_true _ ▸ (by simpa using hne),
           Bool.not_eq_true _ ▸ (by simpa using hports)⟩

/-- C3: `Assign` is idempotent - after a successful
`Assign(s, x, p, k, b)`, calling it again with exactly the same arguments
(whatever the IPAM release outcome of the repeat, none being needed)
succeeds and leaves the entire allocator state unchanged. -/
theorem assign_idempotent (a : Allocator) (svc : String) (ip : IPAddr)
    (ports : List Port) (sh bk : String) (rOk : Bool) (a1 : Allocator)
    (h : a.Assign svc ip ports sh bk rOk = (none, a1)) (rOk2 : Bool) :
    a1.Assign svc ip ports sh bk rOk2 = (none, a1) := by
  unfold Allocator.Assign at h
  split at h
  · cases h
  · rename_i pn hpf
    obtain ⟨hcs, ha1⟩ := doAssign_success_inv a svc pn ip ports ⟨sh, bk⟩ rOk a1 h
    have hpf1 : a1.poolFor ip = some pn := by
      rw [ha1]
      exact poolFor_updateA a svc ⟨pn, ip, ports, ⟨sh, bk⟩⟩ hpf
    have hoth : othersOnIP a1 svc ip = othersOnIP a svc ip := by
      rw [ha1]
      exact othersOnIP_updateA a svc ip ⟨pn, ip, ports, ⟨sh, bk⟩⟩
    have hlook1 : lookupA a1.allocated svc = some ⟨pn, ip, ports, ⟨sh, bk⟩⟩ := by
      rw [ha1]
      exact lookupA_updateA_self a.allocated svc _
    have hcs1 : checkSharing a1 svc ip ports ⟨sh, bk⟩ = none := by
      cases hoth0 : othersOnIP a svc ip with
      | nil => exact checkSharing_nil a1 svc ip ports ⟨sh, bk⟩ (by rw [hoth, hoth0])
      | cons fo rest =>
        obtain ⟨hany, hsk, hne, hports⟩ :=
          checkSharing_none_parts a svc ip ports ⟨sh, bk⟩ fo rest hcs hoth0
        exact checkSharing_ok a1 svc ip ports ⟨sh, bk⟩ fo rest (by rw [hoth, hoth0])
          hany hsk hne hports
    have hrel1 : (needsIpamRelease a1 svc ip && !rOk2) = false := by
      unfold needsIpamRelease
      rw [hlook1]
      simp
    rw [Assign_eq_doAssign a1 svc ip ports sh bk rOk2 pn hpf1]
    rw [doAssign_success a1 svc pn ip ports ⟨sh, bk⟩ rOk2 hcs1 hrel1]
    have : updateA a1.allocated svc (⟨pn, ip, ports, ⟨sh, bk⟩⟩ : Alloc) = a1.allocated := by
      rw [ha1]
      exact updateA_updateA a.allocated svc _
    rw [this]

/-- Witness for C3: assigning `1.2.3.4` twice from the `/31` pool of the
assignment test is a success both times with identical final state. -/
theorem assign_idempotent_witness :
    (Allocator.mk [("test", ⟨.bgp, [cidr4 1 2 3 4 31], false, true⟩)]
        [("s1", ⟨"test", ipv4 1 2 3 4, [], ⟨"", ""⟩⟩)]).Assign "s1" (ipv4 1 2 3 4) [] "" "" false =
      (none, Allocator.mk [("test", ⟨.bgp, [cidr4 1 2 3 4 31], false, true⟩)]
        [("s1", ⟨"test", ipv4 1 2 3 4, [], ⟨"", ""⟩⟩)]) :=
  assign_idempotent (Allocator.mk [("test", ⟨.bgp, [cidr4 1 2 3 4 31], false, true⟩)] [])
    "s1" (ipv4 1 2 3 4) [] "" "" true _ (by decide) false

/-- Counterexample to C4 as stated: in the test-pinned state where `s3` and
`s4` share `1.2.4.3`, `Assign(s3, 1.2.4.3, [udp/53], share, backend)` changes
the ports component of `s3`'s triple while another service shares the IP, yet
it is not rejected with *sharing-frozen* - it succeeds (test
`s3 can change its ports while keeping the same IP`). -/
theorem ports_change_not_frozen :
    lookupA sharedState.allocated "s3" =
      some ⟨"test2", ipv4 1 2 4 3, [⟨"tcp", 443⟩], ⟨"share", "backend"⟩⟩ ∧
    othersOnIP sharedState "s3" (ipv4 1 2 4 3) ≠ [] ∧
    [Port.mk "udp" 53] ≠ [Port.mk "tcp" 443] ∧
    (sharedState.Assign "s3" (ipv4 1 2 4 3) [⟨"udp", 53⟩] "share" "backend" true).1 ≠
      some .sharingFrozen ∧
    (sharedState.Assign "s3" (ipv4 1 2 4 3) [⟨"udp", 53⟩] "share" "backend" true).1 =
      none := by
  decide

/-- C4 (amended): while another service shares the IP, only the
`(sharingKey, backendKey)` pair of a current holder's triple is frozen - an
`Assign` by the holder with a differing key pair is rejected with
*sharing-frozen*, while the holder may change its ports in place provided the
new ports do not conflict with the other holders; with no other service on
the IP the whole triple may change in place. -/
theorem sharing_frozen_keys_only (a : Allocator) (svc : String) (ip : IPAddr)
    (al : Alloc) (ports : List Port) (sh bk : String) (rOk : Bool) (pn : String)
    (hself : lookupA a.allocated svc = some al) (hip : al.ip = ip)
    (hpf : a.poolFor ip = some pn) :
    (othersOnIP a svc ip = [] → (a.Assign svc ip ports sh bk rOk).1 = none) ∧
    (∀ fo rest, othersOnIP a svc ip = fo :: rest →
      ((fo :: rest).any fun kv => kv.2.key.sharing == "") = false →
      (sh == "") = false →
      ((Key.mk sh bk) != fo.2.key) = true →
      (a.Assign svc ip ports sh bk rOk).1 = some .sharingFrozen) ∧
    (∀ fo rest, othersOnIP a svc ip = fo :: rest →
      ((fo :: rest).any fun kv => kv.2.key.sharing == "") = false →
      (sh == "") = false →
      ((Key.mk sh bk) != fo.2.key) = false →
      ((fo :: rest).any fun kv => sharedPorts ports kv.2.ports) = false →
      (a.Assign svc ip ports sh bk rOk).1 = none) := by
  have hrel : (needsIpamRelease a svc ip && !rOk) = false := by
    unfold needsIpamRelease
    rw [hself]
    simp [hip]
  have hselfip : ((lookupA a.allocated svc).any fun x => x.ip == ip) = true := by
    rw [hself]
    simp [hip]
  rw [Assign_eq_doAssign a svc ip ports sh bk rOk pn hpf]
  refine ⟨?_, ?_, ?_⟩
  · intro hnil
    rw [doAssign_success a svc pn ip ports ⟨sh, bk⟩ rOk
      (checkSharing_nil a svc ip ports ⟨sh, bk⟩ hnil) hrel]
  · intro fo rest heq hany hsk hne
    exact doAssign_fst_some a svc pn ip ports ⟨sh, bk⟩ rOk .sharingFrozen
      (checkSharing_frozen a svc ip ports ⟨sh, bk⟩ fo rest heq hany hsk hne hselfip)
  · intro fo rest heq hany hsk hne hports
    rw [doAssign_success a svc pn ip ports ⟨sh, bk⟩ rOk
      (checkSharing_ok a svc ip ports ⟨sh, bk⟩ fo rest heq hany hsk hne hports) hrel]

/-- Witness for C4's amended theorem in the shared test state: `s3` holds
`1.2.4.3` together with `s4`; key changes freeze, port changes pass. -/
theorem sharing_frozen_keys_only_witness :
    (othersOnIP sharedState "s3" (ipv4 1 2 4 3) = [] →
      (sharedState.Assign "s3" (ipv4 1 2 4 3) [⟨"udp", 53⟩] "othershare" "backend" true).1 =
        none) ∧
    (∀ fo rest, othersOnIP sharedState "s3" (ipv4 1 2 4 3) = fo :: rest →
      ((fo :: rest).any fun kv => kv.2.key.sharing == "") = false →
      (("othershare" : String) == "") = false →
      ((Key.mk "othershare" "backend") != fo.2.key) = true →
      (sharedState.Assign "s3" (ipv4 1 2 4 3) [⟨"udp", 53⟩] "othershare" "backend" true).1 =
        some .sharingFrozen) ∧
    (∀ fo rest, othersOnIP sharedState "s3" (ipv4 1 2 4 3) = fo :: rest →
      ((fo :: rest).any fun kv => kv.2.key.sharing == "") = false →
      (("othershare" : String) == "") = false →
      ((Key.mk "othershare" "backend") != fo.2.key) = false →
      ((fo :: rest).any fun kv => sharedPorts [⟨"udp", 53⟩] kv.2.ports) = false →
      (sharedState.Assign "s3" (ipv4 1 2 4 3) [⟨"udp", 53⟩] "othershare" "backend" true).1 =
        none) :=
  sharing_frozen_keys_only sharedState "s3" (ipv4 1 2 4 3)
    ⟨"test2", ipv4 1 2 4 3, [⟨"tcp", 443⟩], ⟨"share", "backend"⟩⟩ [⟨"udp", 53⟩]
    "othershare" "backend" true "test2" (by decide) (by decide) (by decide)

theorem lookupA_cons {α : Type} (x : String × α) (rest : List (String × α)) (key : String) :
    lookupA (x :: rest) key = if x.1 == key then some x.2 else lookupA rest key := by
  obtain ⟨k, v⟩ := x
  rfl

theorem lookupA_map_refresh (ps : List (String × ConfigPool))
    (l : List (String × Alloc)) (svc : String) :
    lookupA (l.map (refreshAlloc ps)) svc =
      (lookupA l svc).map fun al => (refreshAlloc ps (svc, al)).2 := by
  induction l with
  | nil => rfl
  | cons hd tl ih =>
    obtain ⟨k, al⟩ := hd
    rw [List.map_cons, lookupA_cons, lookupA_cons]
    rw [refreshAlloc_fst]
    by_cases hk : (k == svc) = true
    · have hk2 : k = svc := beq_iff_eq.mp hk
      subst hk2
      simp
    · have hk2 : (k == svc) = false := by
        cases hcase : k == svc
        · rfl
        · exact absurd hcase hk
      rw [hk2]
      simp only [Bool.false_eq_true, if_false]
      exact ih

theorem refreshAlloc_idem (ps : List (String × ConfigPool)) (kv : String × Alloc) :
    refreshAlloc ps (refreshAlloc ps kv) = refreshAlloc ps kv := by
  cases hstat : poolForStatic ps kv.2.ip with
  | none =>
    have h1 : refreshAlloc ps kv = kv := by
      unfold refreshAlloc
      rw [hstat]
    rw [h1, h1]
  | some n =>
    have h1 : refreshAlloc ps kv = (kv.1, { kv.2 with pool := n }) := by
      unfold refreshAlloc
      rw [hstat]
    rw [h1]
    unfold refreshAlloc
    have h2 : (kv.1, { kv.2 with pool := n }).2.ip = kv.2.ip := rfl
    rw [h2, hstat]

/-- C7: after every successful `SetPools`, every pre-existing assignment
keeps its address (`IP(s)` is unchanged for every service), `Pool(s)` names
the pool of the new configuration whose CIDRs contain `IP(s)` (so renames,
splits, and swaps are followed), and calling `SetPools` again with the same
configuration is a no-op: it succeeds and leaves the state identical. -/
theorem setPools_success_frame (a : Allocator) (ps : List (String × ConfigPool))
    (a1 : Allocator) (h : a.SetPools ps = (none, a1)) :
    (∀ svc, a1.IP svc = a.IP svc) ∧
    (∀ svc al, lookupA a.allocated svc = some al →
      ∀ n, poolForStatic ps al.ip = some n → a1.Pool svc = n) ∧
    a1.SetPools ps = (none, a1) := by
  have hvalid := setPools_valid_of_ok a ps (by rw [h])
  have ha1 : a1 = { pools := ps, allocated := a.allocated.map (refreshAlloc ps) } := by
    unfold Allocator.SetPools at h
    split at h
    · cases h
    · injection h with h1 h2
      exact h2.symm
  refine ⟨?_, ?_, ?_⟩
  · intro svc
    unfold Allocator.IP
    rw [ha1]
    show (lookupA (a.allocated.map (refreshAlloc ps)) svc).map Alloc.ip = _
    rw [lookupA_map_refresh]
    cases lookupA a.allocated svc with
    | none => rfl
    | some al =>
      simp only [Option.map_some']
      rw [show ((refreshAlloc ps (svc, al)).2).ip = al.ip from refreshAlloc_ip ps (svc, al)]
  · intro svc al hal n hn
    unfold Allocator.Pool
    rw [ha1]
    show (match lookupA (a.allocated.map (refreshAlloc ps)) svc with
          | some al => al.pool | none => "") = n
    rw [lookupA_map_refresh, hal]
    simp only [Option.map_some']
    have : refreshAlloc ps (svc, al) = (svc, { al with pool := n }) := by
      unfold refreshAlloc
      rw [show (svc, al).2.ip = al.ip from rfl, hn]
    rw [this]
  · have hvalid1 : ∀ kv ∈ a1.allocated, allocValid ps kv = true := by
      rw [ha1]
      intro kv hkv
      obtain ⟨kv0, hkv0, rfl⟩ := List.mem_map.mp hkv
      exact refreshAlloc_valid ps kv0 (hvalid kv0 hkv0)
    have hfind : a1.allocated.find? (fun kv => !allocValid ps kv) = none := by
      apply List.find?_eq_none.mpr
      intro kv hkv
      rw [hvalid1 kv hkv]
      simp
    unfold Allocator.SetPools
    rw [hfind]
    have hmap : a1.allocated.map (refreshAlloc ps) = a1.allocated := by
      rw [ha1]
      show (a.allocated.map (refreshAlloc ps)).map (refreshAlloc ps) = _
      rw [List.map_map]
      apply List.map_congr_left
      intro kv _
      exact refreshAlloc_idem ps kv
    rw [hmap, ha1]

/-- Witness for C7 at the reload test's rename scenario: renaming pool `test`
to `test2` around the same CIDRs keeps `IP(s1)` and re-labels `Pool(s1)`, and
repeating the call is a no-op. -/
theorem setPools_success_frame_witness :
    (∀ svc, ((shrinkAllocator.SetPools
        [("test2", ⟨.bgp, [cidr4 1 2 3 0 30], false, true⟩)]).2).IP svc =
      shrinkAllocator.IP svc) ∧
    (∀ svc al, lookupA shrinkAllocator.allocated svc = some al →
      ∀ n, poolForStatic [("test2", ⟨.bgp, [cidr4 1 2 3 0 30], false, true⟩)] al.ip = some n →
        ((shrinkAllocator.SetPools
          [("test2", ⟨.bgp, [cidr4 1 2 3 0 30], false, true⟩)]).2).Pool svc = n) ∧
    ((shrinkAllocator.SetPools [("test2", ⟨.bgp, [cidr4 1 2 3 0 30], false, true⟩)]).2).SetPools
        [("test2", ⟨.bgp, [cidr4 1 2 3 0 30], false, true⟩)] =
      (none, (shrinkAllocator.SetPools [("test2", ⟨.bgp, [cidr4 1 2 3 0 30], false, true⟩)]).2) :=
  setPools_success_frame shrinkAllocator
    [("test2", ⟨.bgp, [cidr4 1 2 3 0 30], false, true⟩)] _ (by decide)

theorem satFold (t : Cidr → Nat) (l : List Cidr) :
    ∀ acc : Nat, acc ≤ MaxInt64 →
      l.foldl (fun a c => satAdd a (min (t c) MaxInt64)) acc =
        min (acc + (l.map t).sum) MaxInt64 := by
  induction l with
  | nil =>
    intro acc hacc
    simp only [List.foldl_nil, List.map_nil, List.sum_nil, Nat.add_zero]
    omega
  | cons c rest ih =>
    intro acc hacc
    simp only [List.foldl_cons, List.map_cons, List.sum_cons]
    rw [ih (satAdd acc (min (t c) MaxInt64)) (by unfold satAdd; omega)]
    unfold satAdd
    omega

/-- C8: `poolCount(pool)` is the sum over the pool's CIDRs of
`2^(addrBits - prefix)` minus, under `AvoidBuggyIPs`, the number of `.0`/`.255`
IPv4 addresses of each IPv4 CIDR, with the arithmetic saturating at
`MaxInt64`; concretely a `/24` yields 256, a `/24` plus a `/25` with
`AvoidBuggyIPs` yields 381, and a pool including an IPv6 `/64` yields
`MaxInt64`. -/
theorem poolCount_spec :
    (∀ p : ConfigPool,
      poolCount p = min ((p.CIDR.map (cidrRawCount p.AvoidBuggyIPs)).sum) MaxInt64) ∧
    poolCount ⟨.bgp, [cidr4 1 2 3 0 24], false, false⟩ = 256 ∧
    poolCount ⟨.bgp, [cidr4 1 2 3 0 24, cidr4 2 3 4 128 25], true, false⟩ = 381 ∧
    poolCount ⟨.bgp, [cidr4 1 2 3 0 24, cidr4 2 3 4 128 25, ⟨.v6, 0, 64⟩], true, false⟩ =
      MaxInt64 := by
  refine ⟨fun p => ?_, by decide, by decide, by decide⟩
  unfold poolCount
  rw [satFold (cidrRawCount p.AvoidBuggyIPs) p.CIDR 0 (by unfold MaxInt64; omega)]
  simp

theorem lookup_pools_not_ipam (pools : List (String × ConfigPool))
    (hstatic : ∀ kv ∈ pools, kv.2.Protocol ≠ .ipam) (pn : String) :
    ((lookupA pools pn).any fun p => p.Protocol == .ipam) = false := by
  cases hl : lookupA pools pn with
  | none => rfl
  | some p =>
    have hmem := lookupA_mem pools pn p hl
    have := hstatic (pn, p) hmem
    simpa using this

theorem needsIpamRelease_static (a : Allocator)
    (hstatic : ∀ kv ∈ a.pools, kv.2.Protocol ≠ .ipam) (svc : String) (ip : IPAddr) :
    needsIpamRelease a svc ip = false := by
  unfold needsIpamRelease
  cases hl : lookupA a.allocated svc with
  | none => rfl
  | some prev =>
    show (prev.ip != ip && (lookupA a.pools prev.pool).any fun p => p.Protocol == .ipam) = false
    rw [lookup_pools_not_ipam a.pools hstatic prev.pool]
    simp

theorem doAssign_release_indep (a : Allocator)
    (hstatic : ∀ kv ∈ a.pools, kv.2.Protocol ≠ .ipam) (svc pn : String) (ip : IPAddr)
    (ports : List Port) (sk : Key) (rel1 rel2 : Bool) :
    a.doAssign svc pn ip ports sk rel1 = a.doAssign svc pn ip ports sk rel2 := by
  unfold Allocator.doAssign
  rw [needsIpamRelease_static a hstatic svc ip]
  simp

theorem assign_release_indep (a : Allocator)
    (hstatic : ∀ kv ∈ a.pools, kv.2.Protocol ≠ .ipam) (svc : String) (ip : IPAddr)
    (ports : List Port) (sh bk : String) (rel1 rel2 : Bool) :
    a.Assign svc ip ports sh bk rel1 = a.Assign svc ip ports sh bk rel2 := by
  unfold Allocator.Assign
  cases a.poolFor ip with
  | none => rfl
  | some pn => exact doAssign_release_indep a hstatic svc pn ip ports ⟨sh, bk⟩ rel1 rel2

theorem tryAddrs_release_indep (a : Allocator)
    (hstatic : ∀ kv ∈ a.pools, kv.2.Protocol ≠ .ipam) (svc : String) (ports : List Port)
    (sh bk : String) (rel1 rel2 : Bool) (fam : IPFamily) :
    ∀ (fuel base : Nat),
      tryAddrs a svc ports sh bk rel1 fam base fuel =
        tryAddrs a svc ports sh bk rel2 fam base fuel := by
  intro fuel
  induction fuel with
  | zero => intro base; rfl
  | succ n ih =>
    intro base
    unfold tryAddrs
    rw [assign_release_indep a hstatic svc ⟨fam, base⟩ ports sh bk rel1 rel2]
    cases a.Assign svc ⟨fam, base⟩ ports sh bk rel2 with
    | mk e a2 =>
      cases e with
      | none => rfl
      | some e2 =>
        show tryAddrs a svc ports sh bk rel1 fam (base + 1) n =
          tryAddrs a svc ports sh bk rel2 fam (base + 1) n
        exact ih (base + 1)

theorem tryCidrs_release_indep (a : Allocator)
    (hstatic : ∀ kv ∈ a.pools, kv.2.Protocol ≠ .ipam) (svc : String) (ports : List Port)
    (sh bk : String) (rel1 rel2 : Bool) (v6 : Bool) :
    ∀ cl : List Cidr,
      tryCidrs a svc ports sh bk rel1 v6 cl = tryCidrs a svc ports sh bk rel2 v6 cl := by
  intro cl
  induction cl with
  | nil => rfl
  | cons c rest ih =>
    unfold tryCidrs
    rw [tryAddrs_release_indep a hstatic svc ports sh bk rel1 rel2 c.family c.size c.firstAddr]
    split
    · cases tryAddrs a svc ports sh bk rel2 c.family c.firstAddr c.size with
      | none => exact ih
      | some r => rfl
    · exact ih

theorem allocateFromPool_agent_indep (a : Allocator)
    (hstatic : ∀ kv ∈ a.pools, kv.2.Protocol ≠ .ipam) (svc : String) (v6 : Bool)
    (pn : String) (ports : List Port) (sh bk : String) (rel1 rel2 : Bool)
    (r1 r2 : Option (List IPAddr)) :
    a.AllocateFromPool svc v6 pn ports sh bk rel1 r1 =
      a.AllocateFromPool svc v6 pn ports sh bk rel2 r2 := by
  unfold Allocator.AllocateFromPool
  cases hl : lookupA a.pools pn with
  | none => rfl
  | some p =>
    have hni : (p.Protocol == .ipam) = false := by
      have := hstatic (pn, p) (lookupA_mem a.pools pn p hl)
      simpa using this
    simp only [hni, Bool.false_eq_true, if_false]
    split
    · rfl
    · rw [tryCidrs_release_indep a hstatic svc ports sh bk rel1 rel2 v6 p.CIDR]

theorem allocateLoop_agent_indep (a : Allocator)
    (hstatic : ∀ kv ∈ a.pools, kv.2.Protocol ≠ .ipam) (svc : String) (v6 : Bool)
    (ports : List Port) (sh bk : String) (rel1 rel2 : Bool)
    (r1 r2 : String → Option (List IPAddr)) :
    ∀ pl : List (String × ConfigPool),
      allocateLoop a svc v6 ports sh bk rel1 r1 pl =
        allocateLoop a svc v6 ports sh bk rel2 r2 pl := by
  intro pl
  induction pl with
  | nil => rfl
  | cons hd rest ih =>
    obtain ⟨name, p⟩ := hd
    unfold allocateLoop
    split
    · exact ih
    · rw [allocateFromPool_agent_indep a hstatic svc v6 name ports sh bk rel1 rel2
        (r1 name) (r2 name)]
      cases a.AllocateFromPool svc v6 name ports sh bk rel2 (r2 name) with
      | mk res a2 =>
        cases res with
        | ok ip => rfl
        | error e =>
          show allocateLoop a svc v6 ports sh bk rel1 r1 rest =
            allocateLoop a svc v6 ports sh bk rel2 r2 rest
          exact ih

/-- C9: with a configuration containing only static pools, auto-pick is a
deterministic function of the configuration and the current assignments:
`Allocate` returns the same result - same IP, same final state - regardless
of the IPAM agent's reservation or release outcomes, so two runs with the
same arguments from the same state coincide (and likewise for
`AllocateFromPool`). -/
theorem allocate_static_deterministic (a : Allocator)
    (hstatic : ∀ kv ∈ a.pools, kv.2.Protocol ≠ .ipam) (svc : String) (v6 : Bool)
    (ports : List Port) (sh bk : String) (rel1 rel2 : Bool)
    (r1 r2 : String → Option (List IPAddr)) :
    a.Allocate svc v6 ports sh bk rel1 r1 = a.Allocate svc v6 ports sh bk rel2 r2 ∧
    ∀ pn, a.AllocateFromPool svc v6 pn ports sh bk rel1 (r1 pn) =
      a.AllocateFromPool svc v6 pn ports sh bk rel2 (r2 pn) := by
  constructor
  · unfold Allocator.Allocate
    cases hl : lookupA a.allocated svc with
    | none => exact allocateLoop_agent_indep a hstatic svc v6 ports sh bk rel1 rel2 r1 r2 a.pools
    | some al =>
      show (if ((al.ip.family == IPFamily.v6) != v6) = true
              then ((Except.error Err.familyMismatch : Except Err IPAddr), a)
            else match a.Assign svc al.ip ports sh bk rel1 with
              | (none, a1) => (Except.ok al.ip, a1)
              | (some _, _) => allocateLoop (a.Unassign svc) svc v6 ports sh bk rel1 r1 a.pools) =
           (if ((al.ip.family == IPFamily.v6) != v6) = true
              then ((Except.error Err.familyMismatch : Except Err IPAddr), a)
            else match a.Assign svc al.ip ports sh bk rel2 with
              | (none, a1) => (Except.ok al.ip, a1)
              | (some _, _) => allocateLoop (a.Unassign svc) svc v6 ports sh bk rel2 r2 a.pools)
      rw [assign_release_indep a hstatic svc al.ip ports sh bk rel1 rel2,
          allocateLoop_agent_indep (a.Unassign svc) hstatic svc v6 ports sh bk rel1 rel2
            r1 r2 a.pools]
  · intro pn
    exact allocateFromPool_agent_indep a hstatic svc v6 pn ports sh bk rel1 rel2 (r1 pn) (r2 pn)

/-- Witness for C9 on a two-static-pool configuration: the allocation result
is identical under two different agent behaviours. -/
theorem allocate_static_deterministic_witness :
    (shrinkAllocator.Allocate "s2" false [] "" "" true (fun _ => none) =
      shrinkAllocator.Allocate "s2" false [] "" "" false (fun _ => some [ipv4 9 9 9 9])) ∧
    ∀ pn, shrinkAllocator.AllocateFromPool "s2" false pn [] "" "" true
        ((fun _ => none) pn) =
      shrinkAllocator.AllocateFromPool "s2" false pn [] "" "" false
        ((fun _ => some [ipv4 9 9 9 9]) pn) :=
  allocate_static_deterministic shrinkAllocator (by decide) "s2" false [] "" ""
    true false (fun _ => none) (fun _ => some [ipv4 9 9 9 9])

/-- C1: in every reachable allocator state the sharing invariant holds - all
services on a multiply-hosted IP carry the same non-empty sharing key, the
same backend key, and pairwise non-intersecting port sets
(`SharingInvariant`) - and `Assign` polices it on any IP with other holders:
it fails with *in-use* when a holder or the caller has an empty sharing key,
with *sharing-mismatch* when the caller's key pair differs from the holders'
agreed pair (the caller not holding the IP itself), with *port-conflict* when
the ports intersect a holder's, and it succeeds on the already-held IP when
the key pair matches, is non-empty, and no ports conflict. -/
theorem reachable_sharing (a : Allocator) (h : Reachable a) :
    SharingInvariant a ∧
    ∀ (svc : String) (ip : IPAddr) (ports : List Port) (sh bk : String) (rOk : Bool)
      (fo : String × Alloc) (rest : List (String × Alloc)),
      othersOnIP a svc ip = fo :: rest →
      ((((fo :: rest).any fun kv => kv.2.key.sharing == "") = true ∨ sh = "") →
        (a.Assign svc ip ports sh bk rOk).1 = some .inUse) ∧
      ((((fo :: rest).any fun kv => kv.2.key.sharing == "") = false) → sh ≠ "" →
        Key.mk sh bk ≠ fo.2.key →
        ((lookupA a.allocated svc).any fun al => al.ip == ip) = false →
        (a.Assign svc ip ports sh bk rOk).1 = some .sharingMismatch) ∧
      ((((fo :: rest).any fun kv => kv.2.key.sharing == "") = false) → sh ≠ "" →
        Key.mk sh bk = fo.2.key →
        (((fo :: rest).any fun kv => sharedPorts ports kv.2.ports) = true) →
        (a.Assign svc ip ports sh bk rOk).1 = some .portConflict) ∧
      (sh ≠ "" → Key.mk sh bk = fo.2.key →
        (((fo :: rest).any fun kv => sharedPorts ports kv.2.ports) = false) →
        (a.Assign svc ip ports sh bk true).1 = none) := by
  obtain ⟨hnd, hpi, hsi⟩ := reachable_inv a h
  refine ⟨hsi, ?_⟩
  intro svc ip ports sh bk rOk fo rest heq
  have hfo_mem : fo ∈ othersOnIP a svc ip := by
    rw [heq]
    exact List.mem_cons_self _ _
  obtain ⟨hfa, hfip, hfsvc⟩ := (mem_othersOnIP _ _ _ _).mp hfo_mem
  obtain ⟨pn, hpf⟩ : ∃ pn, a.poolFor ip = some pn := by
    have := allocValid_poolFor a fo hfa (hpi fo hfa)
    rw [hfip] at this
    exact this
  refine ⟨?_, ?_, ?_, ?_⟩
  · intro hcase
    rw [Assign_eq_doAssign a svc ip ports sh bk rOk pn hpf]
    rcases hcase with hany | hshe
    · exact doAssign_fst_some _ _ _ _ _ _ _ _
        (checkSharing_inUse_holder _ _ _ _ _ fo rest heq hany)
    · cases hany : (fo :: rest).any fun kv => kv.2.key.sharing == "" with
      | true =>
        exact doAssign_fst_some _ _ _ _ _ _ _ _
          (checkSharing_inUse_holder _ _ _ _ _ fo rest heq hany)
      | false =>
        exact doAssign_fst_some _ _ _ _ _ _ _ _
          (checkSharing_inUse_caller _ _ _ _ _ fo rest heq hany (by rw [hshe]; rfl))
  · intro hany hshne hkne hself
    rw [Assign_eq_doAssign a svc ip ports sh bk rOk pn hpf]
    exact doAssign_fst_some _ _ _ _ _ _ _ _
      (checkSharing_mismatch _ _ _ _ _ fo rest heq hany (by simp [hshne])
        (by simp [hkne]) hself)
  · intro hany hshne hkeq hports
    rw [Assign_eq_doAssign a svc ip ports sh bk rOk pn hpf]
    exact doAssign_fst_some _ _ _ _ _ _ _ _
      (checkSharing_portConflict _ _ _ _ _ fo rest heq hany (by simp [hshne])
        (by simp [hkeq]) hports)
  · intro hshne hkeq hports
    rw [Assign_eq_doAssign a svc ip ports sh bk true pn hpf]
    have hany : ((fo :: rest).any fun kv => kv.2.key.sharing == "") = false := by
      apply List.any_eq_false.mpr
      intro kv hkv
      have hkv_mem : kv ∈ othersOnIP a svc ip := by
        rw [heq]
        exact hkv
      obtain ⟨hka, hkip, hksvc⟩ := (mem_othersOnIP _ _ _ _).mp hkv_mem
      have hkey : kv.2.key = fo.2.key := by
        by_cases hsame : kv.1 = fo.1
        · rw [eq_of_keysNodup a.allocated hnd kv fo hka hfa hsame]
        · exact (hsi kv hka fo hfa hsame (by rw [hkip, hfip])).1
      rw [hkey, ← hkeq]
      simp [hshne]
    have hcs := checkSharing_ok a svc ip ports ⟨sh, bk⟩ fo rest heq hany
      (by simp [hshne]) (by simp [hkeq]) hports
    have hrel : (needsIpamRelease a svc ip && !true) = false := by simp
    rw [doAssign_success a svc pn ip ports ⟨sh, bk⟩ true hcs hrel]

/-- Witness for C1 at the reachable shared test state (`New`, then
`SetPools`, then two sharing `Assign`s landing `s4` and `s3` on `1.2.4.3`). -/
theorem reachable_sharing_witness :
    SharingInvariant sharedState ∧
    ∀ (svc : String) (ip : IPAddr) (ports : List Port) (sh bk : String) (rOk : Bool)
      (fo : String × Alloc) (rest : List (String × Alloc)),
      othersOnIP sharedState svc ip = fo :: rest →
      ((((fo :: rest).any fun kv => kv.2.key.sharing == "") = true ∨ sh = "") →
        (sharedState.Assign svc ip ports sh bk rOk).1 = some .inUse) ∧
      ((((fo :: rest).any fun kv => kv.2.key.sharing == "") = false) → sh ≠ "" →
        Key.mk sh bk ≠ fo.2.key →
        ((lookupA sharedState.allocated svc).any fun al => al.ip == ip) = false →
        (sharedState.Assign svc ip ports sh bk rOk).1 = some .sharingMismatch) ∧
      ((((fo :: rest).any fun kv => kv.2.key.sharing == "") = false) → sh ≠ "" →
        Key.mk sh bk = fo.2.key →
        (((fo :: rest).any fun kv => sharedPorts ports kv.2.ports) = true) →
        (sharedState.Assign svc ip ports sh bk rOk).1 = some .portConflict) ∧
      (sh ≠ "" → Key.mk sh bk = fo.2.key →
        (((fo :: rest).any fun kv => sharedPorts ports kv.2.ports) = false) →
        (sharedState.Assign svc ip ports sh bk true).1 = none) := by
  have h0 := Reachable.new
  have h1 := Reachable.setPools [("test2", buggyPool)] h0
  have h2 := Reachable.assign "s4" (ipv4 1 2 4 3) [⟨"tcp", 80⟩] "share" "backend" true h1
  have h3 := Reachable.assign "s3" (ipv4 1 2 4 3) [⟨"tcp", 443⟩] "share" "backend" true h2
  have hst : ((((New.SetPools [("test2", buggyPool)]).2.Assign "s4" (ipv4 1 2 4 3)
      [⟨"tcp", 80⟩] "share" "backend" true).2).Assign "s3" (ipv4 1 2 4 3)
      [⟨"tcp", 443⟩] "share" "backend" true).2 = sharedState := by decide
  rw [hst] at h3
  exact reachable_sharing sharedState h3
